import Mathlib

/-!
A verification development for a RAG (retrieval-augmented-generation) backend:
content-aware chunking (semantic / table / Q&A / hierarchical strategies and a
router with structural auto-detection), a retrieval pipeline over a vector-store
oracle, a project matcher, and an answer-composition chain.

The Python source is shallowly embedded:
* texts are `String` (operated on through their `List Char` data, ASCII domain);
* floating-point similarity scores and distances are modelled as rationals;
* the vector-store, embedding and language-model calls are oracles, passed in
  as explicit arguments (`Except` captures a raising call);
* the third-party `RecursiveCharacterTextSplitter` is an opaque text splitter,
  passed in as a `String → List String` argument;
* Python exceptions are `Except String`, a caught exception is a `match` on it;
* `re` regular-expression searches used by the code are modelled by dedicated
  scanners implementing each concrete pattern's backtracking semantics;
* `json.loads` is modelled by a recursive-descent decoder over the JSON grammar.
-/

/-! ## Python string primitives -/

/-- Python `\s` / `str.strip` whitespace class, over the ASCII range. -/
def pyIsSpace (c : Char) : Bool :=
  c = ' ' || c = '\t' || c = '\n' || c = '\r' || c = '\x0b' || c = '\x0c'

/-- `str.strip()` on character lists: drop whitespace from both ends. -/
def pyStripL (cs : List Char) : List Char :=
  ((cs.dropWhile pyIsSpace).reverse.dropWhile pyIsSpace).reverse

/-- Python `str.strip()`. -/
def pyStrip (s : String) : String :=
  String.mk (pyStripL s.data)

/-- Python `sep in s` / `str.split(sep)` for a single-character separator:
split on every occurrence, keeping empty pieces (`"".split(c) = [""]`). -/
def splitOnChar (sep : Char) : List Char → List (List Char)
  | [] => [[]]
  | c :: rest =>
    if c = sep then
      [] :: splitOnChar sep rest
    else
      match splitOnChar sep rest with
      | [] => [[c]]
      | h :: t => (c :: h) :: t

/-- Python `sep.join(parts)` on character lists. -/
def joinList (sep : List Char) : List (List Char) → List Char
  | [] => []
  | [p] => p
  | p :: rest => p ++ sep ++ joinList sep rest

/-- Python `sep.join(parts)`. -/
def joinSep (sep : String) (parts : List String) : String :=
  String.mk (joinList sep.data (parts.map String.data))

/-- `"\n".join`. -/
def joinNl (parts : List String) : String :=
  joinSep "\n" parts

/-- Split a string into its `"\n"`-separated lines, Python `s.split("\n")`. -/
def pyLines (s : String) : List String :=
  (splitOnChar '\n' s.data).map String.mk

/-- Python `str.split(sep)` for a general separator: cut where `sep` is a
prefix, else carry the head character (fuelled to stay structurally
recursive; the fuel below always suffices). -/
def splitOnSeqGo (sep : List Char) : Nat → List Char → List (List Char)
  | _, [] => [[]]
  | 0, cs => [cs]
  | fuel + 1, c :: rest =>
    if sep.isPrefixOf (c :: rest) then
      match sep with
      | [] => [[]]
      | _ :: stail => [] :: splitOnSeqGo sep fuel (rest.drop stail.length)
    else
      match splitOnSeqGo sep fuel rest with
      | [] => [[c]]
      | h :: t => (c :: h) :: t

/-- Python `str.split(sep)` for a nonempty multi-character separator. -/
def pySplitOn (sep : String) (s : String) : List String :=
  (splitOnSeqGo sep.data (s.data.length + 1) s.data).map String.mk

/-- Case-insensitive character comparison, Python `re.IGNORECASE` on ASCII. -/
def ciEq (a b : Char) : Bool := a.toLower = b.toLower

/-- Case-insensitively strip the literal `pat` from the front of `cs`,
returning the rest on success. -/
def ciStripPrefix : List Char → List Char → Option (List Char)
  | [], cs => some cs
  | _ :: _, [] => none
  | p :: ps, c :: cs => if ciEq p c then ciStripPrefix ps cs else none

/-- `List.isPrefixOf` with plain equality, for `str.startswith`. -/
def startsWithL (pre cs : List Char) : Bool := pre.isPrefixOf cs

/-- Python `str.startswith`. -/
def pyStartsWith (s pre : String) : Bool := startsWithL pre.data s.data

/-- Length of the maximal whitespace run at the front (for greedy `\s*`). -/
def wsRun (cs : List Char) : Nat := (cs.takeWhile pyIsSpace).length

/-! ## Decimal rendering of naturals (Python `str(int)` / f-strings)

Modelled by an explicitly fuelled digit expansion so that it evaluates inside
`decide` and supports an injectivity proof (needed for chunk-id uniqueness). -/

/-- Digit character for `d < 10`. -/
def digitCh (d : Nat) : Char :=
  match d with
  | 0 => '0' | 1 => '1' | 2 => '2' | 3 => '3' | 4 => '4'
  | 5 => '5' | 6 => '6' | 7 => '7' | 8 => '8' | 9 => '9'
  | _ => '*'

/-- Little-endian decimal digits of `n`, with fuel. -/
def natDigitsAux : Nat → Nat → List Nat
  | 0, _ => []
  | fuel + 1, n => if n < 10 then [n] else n % 10 :: natDigitsAux fuel (n / 10)

/-- Decimal digits of `n` (least significant first). -/
def natDigits (n : Nat) : List Nat := natDigitsAux (n + 1) n

/-- Python `str(n)` for a natural number. -/
def natRepr (n : Nat) : String :=
  String.mk ((natDigits n).reverse.map digitCh)

/-- Value of a little-endian digit list. -/
def digitsVal : List Nat → Nat
  | [] => 0
  | d :: ds => d + 10 * digitsVal ds

theorem natDigitsAux_val : ∀ (fuel n : Nat), n < fuel →
    digitsVal (natDigitsAux fuel n) = n := by
  intro fuel
  induction fuel with
  | zero => intro n h; omega
  | succ f ih =>
    intro n h
    by_cases h10 : n < 10
    · simp [natDigitsAux, h10, digitsVal]
    · have hlt : n / 10 < f := by omega
      simp only [natDigitsAux, h10, if_false, digitsVal, ih (n / 10) hlt]
      omega

theorem natDigits_val (n : Nat) : digitsVal (natDigits n) = n :=
  natDigitsAux_val (n + 1) n (Nat.lt_succ_self n)

theorem natDigitsAux_lt_ten : ∀ (fuel n : Nat), ∀ d ∈ natDigitsAux fuel n, d < 10 := by
  intro fuel
  induction fuel with
  | zero => intro n d hd; simp [natDigitsAux] at hd
  | succ f ih =>
    intro n d hd
    by_cases h10 : n < 10
    · simp [natDigitsAux, h10] at hd
      omega
    · simp only [natDigitsAux, h10, if_false, List.mem_cons] at hd
      rcases hd with h | h
      · subst h; exact Nat.mod_lt n (by norm_num)
      · exact ih (n / 10) d h

theorem natDigits_lt_ten (n : Nat) : ∀ d ∈ natDigits n, d < 10 :=
  natDigitsAux_lt_ten (n + 1) n

theorem digitCh_inj : ∀ a < 10, ∀ b < 10, digitCh a = digitCh b → a = b := by
  decide

theorem map_digitCh_inj : ∀ (xs ys : List Nat),
    (∀ d ∈ xs, d < 10) → (∀ d ∈ ys, d < 10) →
    xs.map digitCh = ys.map digitCh → xs = ys := by
  intro xs
  induction xs with
  | nil => intro ys _ _ h; cases ys <;> simp_all
  | cons a as ih =>
    intro ys hx hy h
    cases ys with
    | nil => simp at h
    | cons b bs =>
      simp only [List.map_cons, List.cons.injEq] at h
      have ha : a < 10 := hx a (List.mem_cons_self a as)
      have hb : b < 10 := hy b (List.mem_cons_self b bs)
      have hab := digitCh_inj a ha b hb h.1
      have htail := ih bs (fun d hd => hx d (List.mem_cons_of_mem a hd))
        (fun d hd => hy d (List.mem_cons_of_mem b hd)) h.2
      simp [hab, htail]

theorem natRepr_inj {m n : Nat} (h : natRepr m = natRepr n) : m = n := by
  have hdata : ((natDigits m).reverse.map digitCh) = ((natDigits n).reverse.map digitCh) := by
    have h2 := congrArg String.data h
    simpa [natRepr] using h2
  have hrev : (natDigits m).reverse = (natDigits n).reverse :=
    map_digitCh_inj _ _ (fun d hd => natDigits_lt_ten m d (List.mem_reverse.mp hd))
      (fun d hd => natDigits_lt_ten n d (List.mem_reverse.mp hd)) hdata
  have hdig : natDigits m = natDigits n := List.reverse_injective hrev
  have := natDigits_val m
  rw [hdig, natDigits_val n] at this
  exact this.symm

theorem string_append_left_cancel {s t u : String} (h : s ++ t = s ++ u) : t = u := by
  have h2 := congrArg String.data h
  simp only [String.data_append] at h2
  have h3 : t.data = u.data := List.append_cancel_left h2
  cases t with
  | mk td =>
    cases u with
    | mk ud =>
      simp only at h3
      rw [h3]

/-! ## Models of the concrete regular expressions in `QAChunker` and `ChunkingRouter`

`QAChunker._extract_qa_pairs` runs, with flags `re.DOTALL | re.IGNORECASE`,
`re.findall` for the three patterns `PRE\s*(.+?)\s*MID\s*(.+?)(?=LOOK|$)` where
`(PRE, MID, LOOK)` is `("Q:", "A:", "Q:")`, `("Question:", "Answer:",
"Question:")` or `("\*\*Question\*\*:", "\*\*Answer\*\*:", "\*\*Question\*\*")`.
The scanners below implement exactly the backtracking order of that pattern
shape: literals, greedy `\s*` (longest first), lazy `(.+?)` (shortest first,
any character, since DOTALL is set), and the zero-width lookahead `(?=LOOK|$)`
where `$` matches at the end or just before a final newline. -/

/-- Greedy `\s*`: try dropping `k` whitespace characters, longest first. -/
def wsBacktrack {β : Type} (cs : List Char) (cont : List Char → Option β) : Nat → Option β
  | 0 => cont cs
  | k + 1 =>
    match cont (cs.drop (k + 1)) with
    | some r => some r
    | none => wsBacktrack cs cont k

/-- Greedy `\s*` over the maximal whitespace run at the front of `cs`. -/
def greedyWs {β : Type} (cs : List Char) (cont : List Char → Option β) : Option β :=
  wsBacktrack cs cont (wsRun cs)

/-- Lazy `(.+?)` handing the group and the rest to a continuation
(shortest group first; every character matches under DOTALL). -/
def lazyDotGroup {β : Type} (cont : List Char → List Char → Option β) :
    List Char → List Char → Option β
  | _, [] => none
  | acc, c :: rest =>
    match cont (acc ++ [c]) rest with
    | some r => some r
    | none => lazyDotGroup cont (acc ++ [c]) rest

/-- Python `$` (no MULTILINE): end of input, or just before a final newline. -/
def dollarOk : List Char → Bool
  | [] => true
  | [c] => c = '\n'
  | _ => false

/-- The lookahead `(?=LOOK|$)`, case-insensitive. -/
def lookOk (look cs : List Char) : Bool :=
  (ciStripPrefix look cs).isSome || dollarOk cs

/-- Lazy `(.+?)(?=LOOK|$)`: consume at least one character, stopping as soon
as the lookahead holds. -/
def lazyUntilLook (look : List Char) : List Char → List Char → Option (List Char × List Char)
  | _, [] => none
  | acc, c :: rest =>
    if lookOk look rest then some (acc ++ [c], rest)
    else lazyUntilLook look (acc ++ [c]) rest

/-- Try the pattern `PRE\s*(.+?)\s*MID\s*(.+?)(?=LOOK|$)` anchored at the start
of `cs`; on success return both groups and the rest after the match. -/
def qaMatchAt (pre mid look cs : List Char) : Option (List Char × List Char × List Char) :=
  match ciStripPrefix pre cs with
  | none => none
  | some cs1 =>
    greedyWs cs1 (fun cs2 =>
      lazyDotGroup (fun g1 cs3 =>
        greedyWs cs3 (fun cs4 =>
          match ciStripPrefix mid cs4 with
          | none => none
          | some cs5 =>
            greedyWs cs5 (fun cs6 =>
              match lazyUntilLook look [] cs6 with
              | none => none
              | some (g2, rest) => some (g1, g2, rest)))) [] cs2)

/-- `re.findall`: leftmost matches, scanning resumes after each match. -/
def qaFindAllGo (pre mid look : List Char) : Nat → List Char → List (List Char × List Char)
  | 0, _ => []
  | fuel + 1, cs =>
    match qaMatchAt pre mid look cs with
    | some (g1, g2, rest) => (g1, g2) :: qaFindAllGo pre mid look fuel rest
    | none =>
      match cs with
      | [] => []
      | _ :: rest => qaFindAllGo pre mid look fuel rest

/-- `re.findall(pattern, text, re.DOTALL | re.IGNORECASE)` for one of the three
Q&A pattern shapes, returning the two captured groups of each match. -/
def qaFindAll (pre mid look text : String) : List (String × String) :=
  (qaFindAllGo pre.data mid.data look.data (text.data.length + 1) text.data).map
    (fun p => (String.mk p.1, String.mk p.2))

/-- `QAChunker._extract_qa_pairs`: every pattern is run and every match of
every pattern is appended, in pattern order, stripping both groups. -/
def extract_qa_pairs (text : String) : List (String × String) :=
  ((qaFindAll "Q:" "A:" "Q:" text).map (fun p => (pyStrip p.1, pyStrip p.2))) ++
  ((qaFindAll "Question:" "Answer:" "Question:" text).map (fun p => (pyStrip p.1, pyStrip p.2))) ++
  ((qaFindAll "**Question**:" "**Answer**:" "**Question**" text).map
    (fun p => (pyStrip p.1, pyStrip p.2)))

/-! `ChunkingRouter._is_qa_format` searches, with `re.IGNORECASE` only (no
DOTALL, so `.` excludes newlines while `\s` still includes them), the patterns
`Q:\s*.+\s*A:`, `Question:\s*.+\s*Answer:` and the literal `\*\*Question\*\*:`.
Existence of a match is decided below by enumerating the choice points. -/

/-- After `.+`: does `\s*MID` match here for some amount `≤ k` of whitespace? -/
def tryWsThenLit (mid cs : List Char) : Nat → Bool
  | 0 => (ciStripPrefix mid cs).isSome
  | k + 1 => (ciStripPrefix mid (cs.drop (k + 1))).isSome || tryWsThenLit mid cs k

/-- `.+\s*MID`: one or more non-newline characters, then `\s*MID`. -/
def dotPlusThenLit (mid : List Char) : List Char → Bool
  | [] => false
  | c :: rest =>
    if c = '\n' then false
    else tryWsThenLit mid rest (wsRun rest) || dotPlusThenLit mid rest

/-- `\s*.+\s*MID` for some amount `≤ k` of leading whitespace. -/
def tryWsThenDot (mid cs : List Char) : Nat → Bool
  | 0 => dotPlusThenLit mid cs
  | k + 1 => dotPlusThenLit mid (cs.drop (k + 1)) || tryWsThenDot mid cs k

/-- `PRE\s*.+\s*MID` anchored at the start of `cs`, case-insensitively. -/
def qaSearchAt (pre mid cs : List Char) : Bool :=
  match ciStripPrefix pre cs with
  | none => false
  | some cs1 => tryWsThenDot mid cs1 (wsRun cs1)

/-- `re.search(PRE\s*.+\s*MID, text, re.IGNORECASE)`: try every position. -/
def qaSearch (pre mid : List Char) : List Char → Bool
  | [] => false
  | c :: rest => qaSearchAt pre mid (c :: rest) || qaSearch pre mid rest

/-- Case-insensitive substring search (for the bare `\*\*Question\*\*:`). -/
def ciSubstring (pat : List Char) : List Char → Bool
  | [] => (ciStripPrefix pat []).isSome
  | c :: rest => (ciStripPrefix pat (c :: rest)).isSome || ciSubstring pat rest

/-- `ChunkingRouter._is_qa_format`. -/
def is_qa_format (text : String) : Bool :=
  qaSearch "Q:".data "A:".data text.data ||
  qaSearch "Question:".data "Answer:".data text.data ||
  ciSubstring "**Question**:".data text.data

/-! `ChunkingRouter._is_table` searches `\|.*\|.*\|` (some line contains at
least three pipes, since `.` does not cross newlines) and
`(?:\S+\s*\t){2,}\S+`.  For the second pattern, a match with two or more
repetitions exists iff a match with exactly two repetitions followed by a
non-whitespace character exists (a third repetition would itself begin with
`\S`), which is what `tabPatAt` decides by enumerating the split points. -/

/-- All suffixes reachable by consuming `\S+` (one or more non-whitespace). -/
def nonSpacePlusTails : List Char → List (List Char)
  | [] => []
  | c :: rest => if pyIsSpace c then [] else rest :: nonSpacePlusTails rest

/-- All suffixes reachable by consuming `\s*` (any amount of whitespace). -/
def wsStarTails : List Char → List (List Char)
  | [] => [[]]
  | c :: rest => (c :: rest) :: (if pyIsSpace c then wsStarTails rest else [])

/-- All suffixes after one repetition `\S+\s*\t` anchored at the start. -/
def repRests (cs : List Char) : List (List Char) :=
  (nonSpacePlusTails cs).flatMap (fun t1 =>
    (wsStarTails t1).filterMap (fun t2 =>
      match t2 with
      | '\t' :: r => some r
      | _ => none))

/-- Does the suffix start with a non-whitespace character (final `\S+`)? -/
def headNonSpace : List Char → Bool
  | [] => false
  | c :: _ => !pyIsSpace c

/-- `(?:\S+\s*\t){2,}\S+` anchored at the start of `cs`. -/
def tabPatAt (cs : List Char) : Bool :=
  (repRests cs).any (fun r1 => (repRests r1).any headNonSpace)

/-- `re.search` of the tab-separated pattern: try every position. -/
def tabPatSearch : List Char → Bool
  | [] => false
  | c :: rest => tabPatAt (c :: rest) || tabPatSearch rest

/-- Some line of `text` contains at least three `|` characters
(`re.search(r'\|.*\|.*\|', text)`). -/
def hasThreePipes (text : String) : Bool :=
  (splitOnChar '\n' text.data).any (fun l => 3 ≤ (l.filter (fun c => c = '|')).length)

/-- `ChunkingRouter._is_table`. -/
def is_table (text : String) : Bool :=
  hasThreePipes text || tabPatSearch text.data


/-! ## Chunk data model

Python metadata dicts are modelled as association lists in insertion order;
`{**base, "k": v, ...}` appends, and reads take the last binding, matching
dict-update semantics.  Scalar values mirror what the code stores. -/

/-- A Python metadata value: string, natural number, string list, or `None`. -/
inductive MVal where
  | s (v : String)
  | n (v : Nat)
  | ls (v : List String)
  | nil
deriving DecidableEq, Repr

/-- Metadata dictionary. -/
abbrev Meta := List (String × MVal)

/-- Dictionary read: the last binding of a key wins. -/
def mget (m : Meta) (k : String) : Option MVal :=
  ((List.reverse m).find? (fun p => p.1 = k)).map (fun p => p.2)

/-- `semantic_chunker.Chunk`. -/
structure Chunk where
  content : String
  chunk_id : String
  index : Nat
  metadata : Meta
  parent_id : Option String := none
deriving DecidableEq

/-- `SemanticChunker.chunk`, parameterized by the third-party recursive
character splitter (`split` models `self.splitter.create_documents([text])`,
returning, in order, the page contents of the produced documents).
`if not text or not text.strip()` collapses to one test, since the strip of
the empty string is empty. -/
def semantic_chunk (split : String → List String) (text source : String)
    (base : Meta) : List Chunk :=
  if pyStrip text = "" then []
  else
    let docs := split text
    docs.enum.map (fun p =>
      { content := p.2
        chunk_id := source ++ "_chunk_" ++ natRepr p.1
        index := p.1
        metadata := base ++
          [("source", .s source), ("chunk_index", .n p.1),
           ("total_chunks", .n docs.length), ("chunk_type", .s "semantic"),
           ("char_count", .n p.2.length)] })

/-- `qa_chunker.QAChunk`. -/
structure QAChunk where
  content : String
  question : String
  answer : String
  chunk_id : String
  metadata : Meta
deriving DecidableEq

/-- `QAChunker.chunk`: one chunk per (question, answer) pair, skipping pairs
whose stripped question or answer is empty; the enumeration index (over all
pairs, skipped ones included) names the chunk. -/
def qa_chunk (qa_pairs : List (String × String)) (source : String)
    (website : Option String) (base : Meta) : List QAChunk :=
  qa_pairs.enum.filterMap (fun p =>
    let question := p.2.1
    let answer := p.2.2
    if pyStrip question = "" ∨ pyStrip answer = "" then none
    else some
      { content := "Q: " ++ pyStrip question ++ "\nA: " ++ pyStrip answer
        question := pyStrip question
        answer := pyStrip answer
        chunk_id := source ++ "_qa_" ++ natRepr p.1
        metadata := (base ++
          [("source", .s source), ("chunk_type", .s "qa"),
           ("question", .s (pyStrip question)), ("chunk_index", .n p.1)]) ++
          (match website with
           | some w => [("website", .s w)]
           | none => []) })

/-- `QAChunker.chunk_from_text`. -/
def qa_chunk_from_text (text source : String) (website : Option String)
    (base : Meta) : List QAChunk :=
  qa_chunk (extract_qa_pairs text) source website base

/-- `hierarchical_chunker.HierarchicalChunk`. -/
structure HierarchicalChunk where
  content : String
  chunk_id : String
  level : String
  parent_id : Option String := none
  child_ids : List String := []
  metadata : Meta
deriving DecidableEq

/-- `f"{source}_parent_{p_idx}"`. -/
def mkParentId (source : String) (p : Nat) : String :=
  source ++ "_parent_" ++ natRepr p

/-- `f"{source}_child_{p_idx}_{c_idx}"`. -/
def mkChildId (source : String) (p c : Nat) : String :=
  source ++ "_child_" ++ natRepr p ++ "_" ++ natRepr c

/-- One child chunk of `HierarchicalChunker.chunk` (enumerated as `c` inside
the parent of index `pidx`). -/
def mk_child (source : String) (base : Meta) (pidx : Nat)
    (c : Nat × String) : HierarchicalChunk :=
  { content := c.2
    chunk_id := mkChildId source pidx c.1
    level := "child"
    parent_id := some (mkParentId source pidx)
    child_ids := []
    metadata := base ++
      [("source", .s source), ("chunk_type", .s "hierarchical_child"),
       ("parent_id", .s (mkParentId source pidx)), ("parent_index", .n pidx),
       ("child_index", .n c.1), ("level", .s "child")] }

/-- `HierarchicalChunker.chunk`, parameterized by the two third-party
splitters; returns (parents, children), the two lists of the result dict. -/
def hierarchical_chunk (psplit csplit : String → List String)
    (text source : String) (base : Meta) :
    List HierarchicalChunk × List HierarchicalChunk :=
  let parent_docs := psplit text
  let parents := parent_docs.enum.map (fun p =>
    let child_ids := (csplit p.2).enum.map (fun c => mkChildId source p.1 c.1)
    { content := p.2
      chunk_id := mkParentId source p.1
      level := "parent"
      parent_id := none
      child_ids := child_ids
      metadata := (base ++
        [("source", .s source), ("chunk_type", .s "hierarchical_parent"),
         ("chunk_index", .n p.1), ("level", .s "parent")]) ++
        [("child_count", .n child_ids.length)] : HierarchicalChunk })
  let children := parent_docs.enum.flatMap (fun p =>
    (csplit p.2).enum.map (mk_child source base p.1))
  (parents, children)

/-! ## Table extractor (`processors/table_extractor.py`) -/

/-- `processors.table_extractor.ExtractedTable`. -/
structure ExtractedTable where
  markdown : String
  description : String
  title : Option String := none
  rows : Nat
  columns : Nat
  context : String := ""
  metadata : Meta := []
deriving DecidableEq

/-- Python truthiness of an optional string (`if table.title:`):
both `None` and the empty string are falsy. -/
def optTruthy : Option String → Option String
  | some "" => none
  | o => o

/-- Cell cleaning `cell.replace("|", "\\|").replace("\n", " ")` (the first
replacement introduces no newline, so one pass over characters suffices). -/
def escCell (cell : String) : String :=
  String.mk (cell.data.flatMap (fun c =>
    if c = '|' then ['\\', '|'] else if c = '\n' then [' '] else [c]))

/-- `TableExtractor._generate_description`. -/
def generate_description (headers : List String) (data : List (List String))
    (title : Option String) : String :=
  let parts :=
    (match optTruthy title with
     | some t => ["Table: " ++ t ++ "."]
     | none => []) ++
    ["This table has " ++ natRepr data.length ++ " rows and " ++
       natRepr headers.length ++ " columns.",
     "Columns: " ++ joinSep ", " headers ++ "."] ++
    (if data ≠ [] then
      let first_col_vals := (data.take 3).filterMap List.head?
      if first_col_vals ≠ [] then
        ["First column values include: " ++ joinSep ", " first_col_vals ++ "."]
      else []
    else [])
  joinSep " " parts

/-- One serialized markdown table row over the given cells. -/
def mdRow (cells : List String) : String :=
  "| " ++ joinSep " | " cells ++ " |"

/-- `TableExtractor.convert_to_markdown` (cells already rendered by `str`). -/
def convert_to_markdown (data0 : List (List String))
    (headers0 : Option (List String)) (title : Option String) : ExtractedTable :=
  match data0 with
  | [] =>
    { markdown := "", description := "Empty table", title := title
      rows := 0, columns := 0 }
  | first :: tail =>
    let headers := headers0.getD first
    let data := match headers0 with
      | none => tail
      | some _ => first :: tail
    let num_cols := headers.length
    let header_row := mdRow headers
    let separator := mdRow (headers.map (fun _ => "---"))
    let data_rows := data.map (fun row =>
      mdRow ((List.range num_cols).map (fun i => escCell ((row.get? i).getD ""))))
    { markdown := joinNl (header_row :: separator :: data_rows)
      description := generate_description headers data title
      title := title
      rows := data.length
      columns := num_cols
      metadata := [("headers", .ls headers), ("type", .s "table")] }

/-- `TableExtractor._find_tsv_tables` accumulator loop over the lines. -/
def tsvGo : List String → List (List String) → List ExtractedTable
  | [], current =>
    match current with
    | c0 :: c1 :: rest =>
      let _ := c1
      [convert_to_markdown ((c1 :: rest)) (some c0) none]
    | _ => []
  | line :: ls, current =>
    if line.data.any (fun c => c = '\t') then
      let cells := (splitOnChar '\t' line.data).map String.mk
      if 2 ≤ cells.length then tsvGo ls (current ++ [cells])
      else tsvGo ls current
    else
      (match current with
       | c0 :: c1 :: rest => [convert_to_markdown ((c1 :: rest)) (some c0) none]
       | _ => []) ++ tsvGo ls []

/-- `TableExtractor._find_tsv_tables`. -/
def find_tsv_tables (text : String) : List ExtractedTable :=
  tsvGo (pyLines text) []

/-- `TableExtractor.format_as_context`. -/
def format_as_context (t : ExtractedTable) : String :=
  let parts :=
    (match optTruthy t.title with
     | some title => ["## " ++ title]
     | none => []) ++
    [t.description, "", t.markdown] ++
    (if t.context ≠ "" then ["", "Context: " ++ t.context] else [])
  joinNl parts

/-! ## Table chunker (`chunking/table_chunker.py`)

Python's builtin `hash` is modelled by an explicit argument `hashFn` (it only
feeds chunk-id suffixes). -/

/-- `table_chunker.TableChunk`. -/
structure TableChunk where
  content : String
  chunk_id : String
  table : ExtractedTable
  metadata : Meta
deriving DecidableEq

/-- Python `range(0, stop, step)` for a positive step. -/
def pyRange3 (stop step : Nat) : List Nat :=
  (List.range ((stop + step - 1) / step)).map (fun j => j * step)

/-- `rows_per_chunk = max(10, len(rows) // 3)` in `_split_large_table`. -/
def rows_per_chunk (rows : List String) : Nat := max 10 (rows.length / 3)

/-- `total_parts = (len(rows) + rows_per_chunk - 1) // rows_per_chunk`. -/
def total_parts_of (rows : List String) : Nat :=
  (rows.length + rows_per_chunk rows - 1) / rows_per_chunk rows

/-- The data rows `rows[i : i + rows_per_chunk]` of the `j`-th part. -/
def part_slice (rows : List String) (j : Nat) : List String :=
  (rows.drop (j * rows_per_chunk rows)).take (rows_per_chunk rows)

/-- `TableChunker._split_large_table`. -/
def split_large_table (hashFn : String → Nat) (table : ExtractedTable)
    (source : String) (base : Meta) : List TableChunk :=
  let lines := pyLines table.markdown
  match lines with
  | header :: separator :: rows =>
    let rows_per_chunk := rows_per_chunk rows
    let total_parts := total_parts_of rows
    (pyRange3 rows.length rows_per_chunk).map (fun i =>
      let chunk_rows := (rows.drop i).take rows_per_chunk
      let chunk_markdown := joinNl ([header, separator] ++ chunk_rows)
      let part_num := i / rows_per_chunk + 1
      let chunk_table : ExtractedTable :=
        { markdown := chunk_markdown
          description := table.description ++ " (Part " ++ natRepr part_num ++
            "/" ++ natRepr total_parts ++ ")"
          title := (optTruthy table.title).map
            (fun t => t ++ " (Part " ++ natRepr part_num ++ ")")
          rows := chunk_rows.length
          columns := table.columns
          context := table.context }
      { content := format_as_context chunk_table
        chunk_id := source ++ "_table_" ++ natRepr (hashFn chunk_markdown % 10000) ++
          "_part" ++ natRepr part_num
        table := chunk_table
        metadata := base ++
          [("source", .s source), ("chunk_type", .s "table"),
           ("part", .n part_num), ("total_parts", .n total_parts),
           ("rows", .n chunk_rows.length), ("columns", .n table.columns)] })
  | _ => []

/-- `TableChunker.chunk` (with `table.context` set to the given context). -/
def table_chunker_chunk (hashFn : String → Nat) (max_table_size : Nat)
    (table0 : ExtractedTable) (source : String) (context : String)
    (base : Meta) : List TableChunk :=
  let table := { table0 with context := context }
  let content := format_as_context table
  if max_table_size < content.length then
    split_large_table hashFn table source base
  else
    [{ content := content
       chunk_id := source ++ "_table_" ++ natRepr (hashFn content % 10000)
       table := table
       metadata := base ++
         [("source", .s source), ("chunk_type", .s "table"),
          ("rows", .n table.rows), ("columns", .n table.columns),
          ("table_title", match table.title with
            | some t => .s t
            | none => .nil),
          ("headers", (mget table.metadata "headers").getD (.ls []))] }]

/-! ## Chunking router (`chunking/router.py`) -/

/-- A chunk as carried by the router's `ChunkResult` (the Python list is
heterogeneous over the four chunk classes). -/
inductive RouterChunk where
  | sem (c : Chunk)
  | qa (c : QAChunk)
  | hier (c : HierarchicalChunk)
  | table (c : TableChunk)
deriving DecidableEq

/-- `router.ChunkResult`. -/
structure ChunkResult where
  chunks : List RouterChunk
  strategy_used : String
  parent_chunks : Option (List HierarchicalChunk) := none
deriving DecidableEq

/-- `ChunkingRouter._chunk_semantic`. -/
def chunk_semantic (split : String → List String) (text source : String)
    (base : Meta) : ChunkResult :=
  { chunks := (semantic_chunk split text source base).map .sem
    strategy_used := "semantic" }

/-- `ChunkingRouter._chunk_hierarchical`. -/
def chunk_hierarchical (psplit csplit : String → List String)
    (text source : String) (base : Meta) : ChunkResult :=
  let result := hierarchical_chunk psplit csplit text source base
  { chunks := result.2.map .hier
    strategy_used := "hierarchical"
    parent_chunks := some result.1 }

/-- `ChunkingRouter._auto_detect_and_chunk`: table pattern, then Q&A pattern
with a nonempty chunking result, then the length threshold, else semantic. -/
def auto_detect_and_chunk (split psplit csplit : String → List String)
    (hierarchical_threshold : Nat) (text source : String)
    (website : Option String) (base : Meta) : ChunkResult :=
  if is_table text then
    { chunks := [], strategy_used := "table_detected" }
  else if is_qa_format text ∧ qa_chunk_from_text text source website base ≠ [] then
    { chunks := (qa_chunk_from_text text source website base).map .qa
      strategy_used := "qa" }
  else if hierarchical_threshold < text.length then
    chunk_hierarchical psplit csplit text source base
  else
    chunk_semantic split text source base

/-! ## Vector store search (`vectorstore/chroma_manager.py`)

The ChromaDB per-collection query is an oracle: for each collection name the
caller supplies either the raised exception or the returned rows (document,
metadata, cosine distance, id).  The query-embedding call is a separate oracle
(it runs before the per-collection loop and outside any `try`).  Similarity
scores and distances are rationals standing for the Python floats. -/

/-- `chroma_manager.SearchResult`. -/
structure SearchResult where
  content : String
  chunk_id : String
  score : ℚ
  metadata : Meta
deriving DecidableEq

/-- One row of a ChromaDB query result. -/
structure OracleRow where
  doc : String
  meta : Meta
  dist : ℚ
  id : String
deriving DecidableEq

/-- The unsorted result accumulation of `ChromaManager.search`: failing
collections are caught (logged and skipped), each surviving row's distance is
turned into the similarity `1 - dist` and tagged with its collection. -/
def search_all_results (colls : List (String × Except String (List OracleRow))) :
    List SearchResult :=
  colls.flatMap (fun c =>
    match c.2 with
    | .error _ => []
    | .ok rows => rows.map (fun r =>
        { content := r.doc
          chunk_id := r.id
          score := 1 - r.dist
          metadata := r.meta ++ [("collection", .s c.1)] }))

/-- Python's stable `list.sort(key=lambda x: x.score, reverse=True)` followed
by `all_results[:top_k]`: `List.mergeSort` is the same stable sort, with the
comparison `b.score ≤ a.score` putting higher scores first and keeping the
original order of equal scores. -/
def chroma_search (embed : Except String Unit)
    (colls : List (String × Except String (List OracleRow)))
    (top_k : Nat) : Except String (List SearchResult) := do
  let _ ← embed
  pure (((search_all_results colls).mergeSort
    (fun a b => decide (b.score ≤ a.score))).take top_k)

/-! ## Retriever (`rag/retriever.py`) -/

/-- `retriever.RetrievedDocument` (`page` is what `metadata.get("page")`
yields: absent, or a stored number). -/
structure RetrievedDocument where
  content : String
  source : String
  chunk_id : String
  score : ℚ
  page : Option Nat := none
  metadata : Meta
deriving DecidableEq

/-- Metadata read used by `retrieve`: `result.metadata.get("source", "unknown")`. -/
def mgetStr (m : Meta) (k dflt : String) : String :=
  match mget m k with
  | some (.s v) => v
  | _ => dflt

/-- Metadata read for `page`: a stored number, if any. -/
def mgetNat (m : Meta) (k : String) : Option Nat :=
  match mget m k with
  | some (.n v) => some v
  | _ => none

/-- The per-result conversion in `RAGRetriever.retrieve`. -/
def to_retrieved (result : SearchResult) : RetrievedDocument :=
  { content := result.content
    source := mgetStr result.metadata "source" "unknown"
    chunk_id := result.chunk_id
    score := result.score
    page := mgetNat result.metadata "page"
    metadata := result.metadata }

/-- `RAGRetriever.retrieve`: search, then convert each result in order. -/
def retrieve (embed : Except String Unit)
    (colls : List (String × Except String (List OracleRow)))
    (top_k : Nat) : Except String (List RetrievedDocument) := do
  let results ← chroma_search embed colls top_k
  pure (results.map to_retrieved)

/-- Python truthiness of `doc.page`: present and nonzero. -/
def pageTruthy : Option Nat → Bool
  | some p => decide (p ≠ 0)
  | none => false

/-- The `[Source: …]` tag of one context block (page appended only when
`doc.page` is truthy). -/
def source_info (doc : RetrievedDocument) : String :=
  "[Source: " ++ doc.source ++
    (match doc.page with
     | some p => if p ≠ 0 then ", Page " ++ natRepr p else ""
     | none => "") ++ "]"

/-- One numbered block of `format_context` (`i` is the zero-based position). -/
def context_block (i : Nat) (doc : RetrievedDocument) : String :=
  "--- Document " ++ natRepr (i + 1) ++ " " ++ source_info doc ++ " ---\n" ++
    doc.content

/-- `RAGRetriever.format_context`. -/
def format_context (documents : List RetrievedDocument) : String :=
  if documents = [] then "No relevant documents found."
  else
    let context_parts := documents.enum.map (fun p => context_block p.1 p.2)
    joinSep "\n\n" context_parts

/-- One source entry of `RAGRetriever.get_sources_for_response` (`round(x, 4)`
modelled by rounding the rational at four decimal places). -/
structure SourceEntry where
  content : String
  source : String
  page : Option Nat
  chunk_id : String
  score : ℚ
deriving DecidableEq

/-- `RAGRetriever.get_sources_for_response`. -/
def get_sources_for_response (documents : List RetrievedDocument) : List SourceEntry :=
  documents.map (fun doc =>
    { content := if 500 < doc.content.length
        then String.mk (doc.content.data.take 500) ++ "..."
        else doc.content
      source := doc.source
      page := doc.page
      chunk_id := doc.chunk_id
      score := ((round (doc.score * (10000 : ℚ)) : ℤ) : ℚ) / (10000 : ℚ) })

/-! ## Answer composition (`rag/chain.py`)

The prompt templates (`rag/prompts.py`) are pure string formatting with no
failure mode; they are abstracted as an argument `prompts` mapping (context,
question, history) to the (system, user) prompt pair.  The language model is
the oracle `llm`.  Conversation memory is pure in-process bookkeeping; the
sessionless path (`session_id=None`, history `""`) is modelled. -/

/-- `chain.RAGResponse` (sessionless). -/
structure RAGResponse where
  answer : String
  sources : List SourceEntry
  query : String
  documents_used : Nat
deriving DecidableEq

/-- `RAGChain.query`: retrieve (embedding + vector store), format the context,
build prompts, invoke the language model once, assemble the response.  Any
uncaught oracle failure propagates. -/
def rag_chain_query (embed : Except String Unit)
    (colls : List (String × Except String (List OracleRow)))
    (prompts : String → String → String → String × String)
    (llm : String → String → Except String String)
    (question : String) (top_k : Nat) : Except String RAGResponse := do
  let documents ← retrieve embed colls top_k
  let context := format_context documents
  let sys_user := prompts context question ""
  let answer ← llm sys_user.1 sys_user.2
  pure
    { answer := answer
      sources := get_sources_for_response documents
      query := question
      documents_used := documents.length }

/-! ## A model of `json.loads` (for `ProjectMatcher`)

Recursive-descent decoder over the JSON grammar (RFC 8259) on ASCII text:
literals, numbers (integers, fractions, exponents — represented as rationals),
strings with the standard escapes, arrays and objects; trailing data anywhere
makes the whole decode fail, as `json.loads` raises on extra data.  The
non-finite extensions `NaN`/`Infinity` accepted by Python are outside the
model. -/

/-- A decoded Python JSON value. -/
inductive PyJson where
  | null
  | bool (b : Bool)
  | num (q : ℚ)
  | str (s : String)
  | arr (elems : List PyJson)
  | obj (fields : List (String × PyJson))

/-- JSON inter-token whitespace. -/
def jsonWs (cs : List Char) : List Char :=
  cs.dropWhile (fun c => c = ' ' || c = '\t' || c = '\n' || c = '\r')

/-- Hexadecimal digit value. -/
def hexVal (c : Char) : Option Nat :=
  if '0' ≤ c ∧ c ≤ '9' then some (c.toNat - 48)
  else if 'a' ≤ c ∧ c ≤ 'f' then some (c.toNat - 87)
  else if 'A' ≤ c ∧ c ≤ 'F' then some (c.toNat - 55)
  else none

/-- JSON string body after the opening quote: content and rest after the
closing quote.  Unescaped control characters are invalid (strict mode). -/
def jStrChars : List Char → Option (List Char × List Char)
  | [] => none
  | '"' :: rest => some ([], rest)
  | '\\' :: 'u' :: h1 :: h2 :: h3 :: h4 :: r3 =>
    (match hexVal h1, hexVal h2, hexVal h3, hexVal h4 with
     | some a, some b, some c2, some d =>
       let code := ((a * 16 + b) * 16 + c2) * 16 + d
       if h : code.isValidChar then
         (jStrChars r3).map (fun p => (Char.ofNatAux code h :: p.1, p.2))
       else none
     | _, _, _, _ => none)
  | '\\' :: e :: r2 =>
    if e = '"' ∨ e = '\\' ∨ e = '/' then
      (jStrChars r2).map (fun p => (e :: p.1, p.2))
    else if e = 'n' then (jStrChars r2).map (fun p => ('\n' :: p.1, p.2))
    else if e = 't' then (jStrChars r2).map (fun p => ('\t' :: p.1, p.2))
    else if e = 'r' then (jStrChars r2).map (fun p => ('\r' :: p.1, p.2))
    else if e = 'b' then (jStrChars r2).map (fun p => ('\x08' :: p.1, p.2))
    else if e = 'f' then (jStrChars r2).map (fun p => ('\x0c' :: p.1, p.2))
    else none
  | c :: rest =>
    if c = '\\' then none
    else if c.toNat < 32 then none
    else (jStrChars rest).map (fun p => (c :: p.1, p.2))

/-- Natural value of a nonempty digit run. -/
def digitsNum (ds : List Char) : Nat :=
  ds.foldl (fun acc c => acc * 10 + (c.toNat - 48)) 0

/-- JSON number at the front of `cs` (first character already known to start
a number attempt): sign, integer part without leading zeros, optional
fraction, optional exponent. -/
def jNum (cs : List Char) : Option (ℚ × List Char) :=
  let sign : ℚ × List Char := match cs with
    | '-' :: r => (-1, r)
    | _ => (1, cs)
  let intDigits := sign.2.takeWhile (fun c => '0' ≤ c ∧ c ≤ '9')
  let afterInt := sign.2.drop intDigits.length
  if intDigits = [] then none
  else if 2 ≤ intDigits.length ∧ intDigits.head? = some '0' then none
  else
    let intPart : ℚ := (digitsNum intDigits : ℚ)
    let fracState : Option (ℚ × List Char) := match afterInt with
      | '.' :: fr =>
        let fracDigits := fr.takeWhile (fun c => '0' ≤ c ∧ c ≤ '9')
        if fracDigits = [] then none
        else some ((digitsNum fracDigits : ℚ) / ((10 : ℚ) ^ fracDigits.length),
          fr.drop fracDigits.length)
      | _ => some (0, afterInt)
    match fracState with
    | none => none
    | some fs =>
      let expState : Option (ℚ × List Char) := match fs.2 with
        | 'e' :: er | 'E' :: er =>
          let es : Bool × List Char := match er with
            | '-' :: r => (true, r)
            | '+' :: r => (false, r)
            | _ => (false, er)
          let expDigits := es.2.takeWhile (fun c => '0' ≤ c ∧ c ≤ '9')
          if expDigits = [] then none
          else
            let e := digitsNum expDigits
            some (if es.1 then ((10 : ℚ) ^ e)⁻¹ else ((10 : ℚ) ^ e),
              es.2.drop expDigits.length)
        | other => some (1, other)
      expState.map (fun es => (sign.1 * (intPart + fs.1) * es.1, es.2))

/-- The literal `null` continuation. -/
def ciNone (cs : List Char) : Option (List Char) :=
  match cs with
  | 'u' :: 'l' :: 'l' :: rest => some rest
  | _ => none

/-- The literal `true` continuation. -/
def ciTrue (cs : List Char) : Option (List Char) :=
  match cs with
  | 'r' :: 'u' :: 'e' :: rest => some rest
  | _ => none

/-- The literal `false` continuation. -/
def ciFalse (cs : List Char) : Option (List Char) :=
  match cs with
  | 'a' :: 'l' :: 's' :: 'e' :: rest => some rest
  | _ => none

mutual

/-- JSON value at the front of `cs` (after skipping whitespace). -/
def jVal : Nat → List Char → Option (PyJson × List Char)
  | 0, _ => none
  | fuel + 1, cs0 =>
    let cs := jsonWs cs0
    match cs with
    | [] => none
    | c :: rest =>
      if c = 'n' then (ciNone rest).map (fun r => (PyJson.null, r))
      else if c = 't' then (ciTrue rest).map (fun r => (PyJson.bool true, r))
      else if c = 'f' then (ciFalse rest).map (fun r => (PyJson.bool false, r))
      else if c = '"' then
        (jStrChars rest).map (fun p => (PyJson.str (String.mk p.1), p.2))
      else if c = '[' then
        (jArrElems fuel (jsonWs rest)).map (fun p => (PyJson.arr p.1, p.2))
      else if c = '{' then
        (jObjFields fuel (jsonWs rest)).map (fun p => (PyJson.obj p.1, p.2))
      else
        (jNum cs).map (fun p => (PyJson.num p.1, p.2))

/-- Array elements after `[` (whitespace already skipped). -/
def jArrElems : Nat → List Char → Option (List PyJson × List Char)
  | 0, _ => none
  | fuel + 1, cs =>
    match cs with
    | ']' :: rest => some ([], rest)
    | _ =>
      match jVal fuel cs with
      | none => none
      | some (v, after) =>
        match jsonWs after with
        | ',' :: rest =>
          (jArrElems fuel (jsonWs rest)).bind (fun p =>
            match p.1 with
            | [] => none
            | _ => some (v :: p.1, p.2))
        | ']' :: rest => some ([v], rest)
        | _ => none

/-- Object fields after `{` (whitespace already skipped). -/
def jObjFields : Nat → List Char → Option (List (String × PyJson) × List Char)
  | 0, _ => none
  | fuel + 1, cs =>
    match cs with
    | '}' :: rest => some ([], rest)
    | '"' :: rest =>
      match jStrChars rest with
      | none => none
      | some (key, afterKey) =>
        match jsonWs afterKey with
        | ':' :: afterColon =>
          match jVal fuel afterColon with
          | none => none
          | some (v, afterVal) =>
            match jsonWs afterVal with
            | ',' :: rest2 =>
              (jObjFields fuel (jsonWs rest2)).bind (fun p =>
                match p.1 with
                | [] => none
                | _ => some ((String.mk key, v) :: p.1, p.2))
            | '}' :: rest2 => some ([(String.mk key, v)], rest2)
            | _ => none
        | _ => none
    | _ => none

end

/-- `json.loads`: `none` models a raised `json.JSONDecodeError`. -/
def json_loads (s : String) : Option PyJson :=
  match jVal (s.length + 1) s.data with
  | some (v, rest) => if jsonWs rest = [] then some v else none
  | none => none

/-! ## Project matcher (`rag/project_matcher.py`) -/

/-- `project_matcher.ProjectMatch`. -/
structure ProjectMatch where
  name : String
  project_type : String
  focus_areas : List String
  target_species : List String
  location : String
  description : String
  methodology : String
  expected_outcomes : List String
  relevance_score : ℚ := 0
  source_chunk_id : Option String := none
deriving DecidableEq

/-- `ProjectMatcher._parse_list` on a metadata value; `none` models a raised
exception (`.split` on a number).  Lists pass through, falsy values give `[]`,
strings are split on commas with items stripped and blank items dropped. -/
def parse_list : MVal → Option (List String)
  | .ls v => some v
  | .nil => some []
  | .n v => if v = 0 then some [] else none
  | .s v =>
    some (if v = "" then []
      else ((splitOnChar ',' v.data).map (fun item => pyStrip (String.mk item))).filter
        (fun item => item ≠ ""))

/-- `ProjectMatcher.MATCH_THRESHOLD`. -/
def MATCH_THRESHOLD : ℚ := 6 / 10

/-- `ProjectMatcher.find_matching_project`, applied to the search results of
the dedicated project collection: `None` on an empty result list or a top
score below the threshold, otherwise the top result mapped to a `ProjectMatch`
(the `try` around the mapping catches a parsing failure as `None`). -/
def find_matching_project (results : List SearchResult) : Option ProjectMatch :=
  match results with
  | [] => none
  | best_result :: _ =>
    if best_result.score < MATCH_THRESHOLD then none
    else
      match parse_list ((mget best_result.metadata "focus_areas").getD (.s "")),
            parse_list ((mget best_result.metadata "target_species").getD (.s "")),
            parse_list ((mget best_result.metadata "expected_outcomes").getD (.s "")) with
      | some fa, some ts, some eo =>
        some
          { name := mgetStr best_result.metadata "project_name" "Unnamed Project"
            project_type := "existing"
            focus_areas := fa
            target_species := ts
            location := mgetStr best_result.metadata "location" "India"
            description := best_result.content
            methodology := mgetStr best_result.metadata "methodology" ""
            expected_outcomes := eo
            relevance_score := best_result.score
            source_chunk_id := some best_result.chunk_id }
      | _, _, _ => none

/-- Dictionary read on decoded JSON object fields (last binding wins, as in a
Python dict built from JSON). -/
def jget (fields : List (String × PyJson)) (k : String) : Option PyJson :=
  ((List.reverse fields).find? (fun p => p.1 = k)).map (fun p => p.2)

/-- `project_data.get(k, dflt)` read as a string (a non-string value would be
stored raw by Python; the model substitutes the default — the claims proved
here never touch that case). -/
def jgetStr (fields : List (String × PyJson)) (k dflt : String) : String :=
  match jget fields k with
  | some (.str s) => s
  | _ => dflt

/-- `project_data.get(k, [])` read as a string list (same caveat). -/
def jgetStrList (fields : List (String × PyJson)) (k : String) : List String :=
  match jget fields k with
  | some (.arr xs) => xs.filterMap (fun x =>
      match x with
      | .str s => some s
      | _ => none)
  | _ => []

/-- The deterministic fallback project built when the generator's output fails
to decode as JSON. -/
def fallback_project (grant_focus : String) : ProjectMatch :=
  { name := "Daruka Conservation Initiative - " ++ grant_focus
    project_type := "generated"
    focus_areas := [grant_focus]
    target_species := []
    location := "India"
    description := "AI-powered conservation project focusing on " ++ grant_focus ++
      " using Daruka.Earth's dMRV platform."
    methodology := "Bioacoustic monitoring, satellite imagery analysis, and community-driven data collection."
    expected_outcomes := ["Species population baseline", "Ecosystem health metrics",
      "Community engagement"]
    relevance_score := 8 / 10 }

/-- The code-fence cleanup in `generate_hypothetical_project`: strip, take the
piece after the first fence when the text starts with one (the leading-fence
guard guarantees that `split` yields a second piece), drop a `json` tag,
strip again. -/
def clean_llm_content (responseText : String) : String :=
  let content := pyStrip responseText
  let content :=
    if pyStartsWith content "```" then
      let c1 := ((pySplitOn "```" content).get? 1).getD ""
      if pyStartsWith c1 "json" then String.mk (c1.data.drop 4) else c1
    else content
  pyStrip content

/-- `ProjectMatcher.generate_hypothetical_project`, applied to the text the
language-model oracle returned.  Only `json.JSONDecodeError` is caught (giving
the fallback); JSON that decodes to a non-object hits `project_data.get` and
raises `AttributeError`, modelled as `Except.error`. -/
def generate_hypothetical_project (grant_focus responseText : String) :
    Except String ProjectMatch :=
  let content := clean_llm_content responseText
  match json_loads content with
  | none => .ok (fallback_project grant_focus)
  | some (.obj fields) => .ok
      { name := jgetStr fields "project_name" "Generated Conservation Project"
        project_type := "generated"
        focus_areas := jgetStrList fields "focus_areas"
        target_species := jgetStrList fields "target_species"
        location := jgetStr fields "location" "India"
        description := jgetStr fields "description" ""
        methodology := jgetStr fields "methodology" ""
        expected_outcomes := jgetStrList fields "expected_outcomes"
        relevance_score := 1 }
  | some _ => .error "AttributeError: .get on a non-dict JSON value"


/-! ## Helper lemmas on strings and joins -/

theorem strMk_data (s : String) : String.mk s.data = s := by
  cases s
  rfl

theorem joinSep_cons_cons (sep a b : String) (bs : List String) :
    (joinSep sep (a :: b :: bs)).data =
      a.data ++ sep.data ++ (joinSep sep (b :: bs)).data := by
  simp [joinSep, joinList]

theorem joinSep_single (sep a : String) : joinSep sep [a] = a := by
  simp [joinSep, joinList, strMk_data]

theorem joinSep_head (sep a : String) (as : List String) (c : Char)
    (hc : a.data.head? = some c) :
    (joinSep sep (a :: as)).data.head? = some c := by
  cases as with
  | nil => rw [joinSep_single]; exact hc
  | cons b bs =>
    rw [joinSep_cons_cons]
    cases hd : a.data with
    | nil => rw [hd] at hc; simp at hc
    | cons x xs =>
      rw [hd] at hc
      simp at hc
      simp [hd, hc]

/-! ## C10 — `format_context` -/

theorem context_block_head (i : Nat) (doc : RetrievedDocument) :
    (context_block i doc).data.head? = some '-' := by
  have : (context_block i doc).data = "--- Document ".data ++
      (natRepr (i + 1) ++ " " ++ source_info doc ++ " ---\n" ++ doc.content).data := by
    simp [context_block, String.data_append]
  rw [this]
  rfl

/-- A retrieved document whose metadata stores page number `0`. -/
def pageZeroDoc : RetrievedDocument :=
  { content := "body", source := "s", chunk_id := "c0", score := 1,
    page := some 0, metadata := [("page", .n 0)] }

/-- A retrieved document whose metadata stores page number `1`. -/
def pageOneDoc : RetrievedDocument :=
  { content := "body", source := "s", chunk_id := "c1", score := 1,
    page := some 1, metadata := [("page", .n 1)] }

/-- C10, counterexample: this document has a page number present (page `0`),
yet its `[Source: …]` tag in the formatted context omits the page, because the
code tests Python truthiness (`if doc.page:`) and `0` is falsy. -/
theorem c10_counterexample :
    pageZeroDoc.page = some 0 ∧
    format_context [pageZeroDoc] = "--- Document 1 [Source: s] ---\nbody" :=
  ⟨rfl, by decide⟩

/-- C10 (amended): `format_context` returns the sentinel exactly on the empty
list; otherwise it emits the numbered blocks in input order, and a block's
`[Source: …]` tag carries the page number whenever the page is present and
nonzero (Python-truthy). -/
theorem c10_format_context :
    format_context [] = "No relevant documents found." ∧
    (∀ documents : List RetrievedDocument, documents ≠ [] →
      format_context documents =
        joinSep "\n\n" (documents.enum.map (fun p => context_block p.1 p.2)) ∧
      format_context documents ≠ "No relevant documents found.") ∧
    (∀ (doc : RetrievedDocument) (p : Nat), doc.page = some p → p ≠ 0 →
      source_info doc = "[Source: " ++ doc.source ++ ", Page " ++ natRepr p ++ "]") := by
  refine ⟨rfl, ?_, ?_⟩
  · intro documents hne
    constructor
    · simp [format_context, hne]
    · cases documents with
      | nil => exact absurd rfl hne
      | cons d ds =>
        intro heq
        have hform : format_context (d :: ds) =
            joinSep "\n\n" ((d :: ds).enum.map (fun p => context_block p.1 p.2)) := by
          simp [format_context]
        rw [hform] at heq
        have henum : ((d :: ds).enum.map (fun p => context_block p.1 p.2)) =
            context_block 0 d :: (ds.enumFrom 1).map (fun p => context_block p.1 p.2) := by
          simp [List.enum_cons]
        rw [henum] at heq
        have hhead := joinSep_head "\n\n" (context_block 0 d)
          ((ds.enumFrom 1).map (fun p => context_block p.1 p.2)) '-'
          (context_block_head 0 d)
        rw [heq] at hhead
        simp at hhead
  · intro doc p hp hnz
    simp [source_info, hp, hnz, String.append_assoc]

/-- C10 witness: the amended theorem applied at concrete inputs. -/
theorem c10_format_context_witness :
    (([pageZeroDoc] : List RetrievedDocument) ≠ [] ∧
      format_context [pageZeroDoc] ≠ "No relevant documents found.") ∧
    (pageOneDoc.page = some 1 ∧ (1 : Nat) ≠ 0 ∧
      source_info pageOneDoc = "[Source: " ++ pageOneDoc.source ++ ", Page " ++ natRepr 1 ++ "]") :=
  ⟨⟨by decide, (c10_format_context.2.1 [pageZeroDoc] (by decide)).2⟩,
    ⟨rfl, by decide, c10_format_context.2.2 pageOneDoc 1 rfl (by decide)⟩⟩

/-! ## C5 — `find_matching_project` -/

/-- The claim's reading of "comma-separated metadata fields parsed into
trimmed lists with empty items dropped". -/
def commaSplitTrimmed (v : String) : List String :=
  ((splitOnChar ',' v.data).map (fun item => pyStrip (String.mk item))).filter
    (fun item => item ≠ "")

theorem parse_list_str (v : String) :
    parse_list (.s v) = some (commaSplitTrimmed v) := by
  by_cases hv : v = ""
  · subst hv
    decide
  · simp [parse_list, commaSplitTrimmed, hv]

/-- C5: `find_matching_project` returns nothing on an empty result list or a
top score strictly below the 0.6 threshold; at or above the threshold it
returns a `ProjectMatch` marked `existing`, scored with the top score, whose
list fields are the comma-split, trimmed, blank-dropped parses of the
corresponding metadata fields (absent fields read as `""`). -/
theorem c5_find_matching_project :
    find_matching_project [] = none ∧
    (∀ (best : SearchResult) (rest : List SearchResult),
      best.score < MATCH_THRESHOLD → find_matching_project (best :: rest) = none) ∧
    (∀ (best : SearchResult) (rest : List SearchResult) (fa ts eo : String),
      MATCH_THRESHOLD ≤ best.score →
      (mget best.metadata "focus_areas").getD (.s "") = .s fa →
      (mget best.metadata "target_species").getD (.s "") = .s ts →
      (mget best.metadata "expected_outcomes").getD (.s "") = .s eo →
      find_matching_project (best :: rest) = some
        { name := mgetStr best.metadata "project_name" "Unnamed Project"
          project_type := "existing"
          focus_areas := commaSplitTrimmed fa
          target_species := commaSplitTrimmed ts
          location := mgetStr best.metadata "location" "India"
          description := best.content
          methodology := mgetStr best.metadata "methodology" ""
          expected_outcomes := commaSplitTrimmed eo
          relevance_score := best.score
          source_chunk_id := some best.chunk_id }) := by
  refine ⟨rfl, ?_, ?_⟩
  · intro best rest hlt
    simp [find_matching_project, hlt]
  · intro best rest fa ts eo hle hfa hts heo
    have hnlt : ¬ best.score < MATCH_THRESHOLD := not_lt.mpr hle
    simp only [find_matching_project, hnlt, if_false, hfa, hts, heo, parse_list_str]

/-- A concrete top search result above the match threshold. -/
def c5Result : SearchResult :=
  { content := "desc", chunk_id := "p1", score := 7 / 10,
    metadata := [("project_name", .s "P"), ("focus_areas", .s "a, ,b"),
      ("target_species", .s "x"), ("location", .s "L")] }

/-- C5 witness: the theorem applied at concrete inputs on both sides of the
threshold. -/
theorem c5_find_matching_project_witness :
    ((7 : ℚ) / 10 < MATCH_THRESHOLD → False) ∧
    find_matching_project [{ c5Result with score := 5 / 10 }] = none ∧
    find_matching_project [c5Result] = some
      { name := "P", project_type := "existing", focus_areas := ["a", "b"],
        target_species := ["x"], location := "L", description := "desc",
        methodology := "", expected_outcomes := [], relevance_score := 7 / 10,
        source_chunk_id := some "p1" } := by
  refine ⟨?_, ?_, ?_⟩
  · intro h
    rw [MATCH_THRESHOLD] at h
    norm_num at h
  · exact c5_find_matching_project.2.1 _ [] (by norm_num [c5Result, MATCH_THRESHOLD])
  · have h := c5_find_matching_project.2.2 c5Result [] "a, ,b" "x" ""
      (by norm_num [c5Result, MATCH_THRESHOLD]) rfl rfl rfl
    rw [h]
    rfl

/-! ## C6 — `generate_hypothetical_project` -/

/-- C6, counterexample: the language-model text `"[]"` is valid JSON but not
an object; `json.loads` succeeds, so the `except json.JSONDecodeError` clause
does not fire, and `project_data.get(...)` raises `AttributeError` — the call
does not return the fallback, it propagates an error. -/
theorem c6_counterexample :
    generate_hypothetical_project "wetland conservation" "[]" =
      .error "AttributeError: .get on a non-dict JSON value" := rfl

/-- C6 (amended): when the (fence-stripped) response fails to decode as JSON,
the call returns the deterministic fallback built from the grant focus alone,
whose `focus_areas` is exactly `[grant_focus]` and whose type is `generated`;
when the response decodes as a JSON object the call also returns normally with
type `generated`; but a response decoding to non-object JSON propagates an
exception. -/
theorem c6_generate_hypothetical_project :
    (∀ grant_focus responseText : String,
      json_loads (clean_llm_content responseText) = none →
      generate_hypothetical_project grant_focus responseText =
        .ok (fallback_project grant_focus)) ∧
    (∀ grant_focus : String,
      (fallback_project grant_focus).project_type = "generated" ∧
      (fallback_project grant_focus).focus_areas = [grant_focus]) ∧
    (∀ (grant_focus responseText : String) (fields : List (String × PyJson)),
      json_loads (clean_llm_content responseText) = some (.obj fields) →
      ∃ pm, generate_hypothetical_project grant_focus responseText = .ok pm ∧
        pm.project_type = "generated") := by
  refine ⟨?_, ?_, ?_⟩
  · intro grant_focus responseText hdec
    simp [generate_hypothetical_project, hdec]
  · intro grant_focus
    exact ⟨rfl, rfl⟩
  · intro grant_focus responseText fields hdec
    have h : generate_hypothetical_project grant_focus responseText =
        .ok { name := jgetStr fields "project_name" "Generated Conservation Project"
              project_type := "generated"
              focus_areas := jgetStrList fields "focus_areas"
              target_species := jgetStrList fields "target_species"
              location := jgetStr fields "location" "India"
              description := jgetStr fields "description" ""
              methodology := jgetStr fields "methodology" ""
              expected_outcomes := jgetStrList fields "expected_outcomes"
              relevance_score := 1 } := by
      simp only [generate_hypothetical_project, hdec]
    exact ⟨_, h, rfl⟩

/-- C6 witness: the amended theorem applied at a non-JSON response and at a
JSON-object response. -/
theorem c6_generate_hypothetical_project_witness :
    (json_loads (clean_llm_content "not json") = none ∧
      generate_hypothetical_project "tigers" "not json" =
        .ok (fallback_project "tigers")) ∧
    (json_loads (clean_llm_content "\x7b\"project_name\": \"X\"\x7d") =
        some (.obj [("project_name", .str "X")]) ∧
      ∃ pm, generate_hypothetical_project "tigers" "\x7b\"project_name\": \"X\"\x7d" =
        .ok pm ∧ pm.project_type = "generated") :=
  ⟨⟨rfl, c6_generate_hypothetical_project.1 "tigers" "not json" rfl⟩,
    ⟨rfl, c6_generate_hypothetical_project.2.2 "tigers" "\x7b\"project_name\": \"X\"\x7d"
      [("project_name", .str "X")] rfl⟩⟩

/-! ## C2 — `_extract_qa_pairs` pattern accumulation -/

/-- A text in which both the `Q:/A:` pattern and the bold pattern match. -/
def c2text : String := "Q: x A: y\n**Question**: u **Answer**: v"

/-- C2, counterexample: on `c2text` the first pattern (`Q:/A:`) yields a pair,
yet the bold pattern still contributes its own pair to the extraction result —
later patterns are not skipped once an earlier pattern matches. -/
theorem c2_counterexample :
    (qaFindAll "Q:" "A:" "Q:" c2text).map (fun p => (pyStrip p.1, pyStrip p.2)) =
      [("x", "y\n**Question**: u **Answer**: v")] ∧
    (qaFindAll "**Question**:" "**Answer**:" "**Question**" c2text).map
        (fun p => (pyStrip p.1, pyStrip p.2)) = [("u", "v")] ∧
    extract_qa_pairs c2text =
      [("x", "y\n**Question**: u **Answer**: v"), ("u", "v")] := by
  refine ⟨by decide, by decide, by decide⟩

/-- C2 (amended): extraction runs all three patterns in priority order and
concatenates every pattern's stripped matches — the first pattern's pairs come
first, but pairs of later patterns are appended even when an earlier pattern
already matched. -/
theorem c2_extract_qa_pairs (text : String) :
    List.IsPrefix
      ((qaFindAll "Q:" "A:" "Q:" text).map (fun p => (pyStrip p.1, pyStrip p.2)))
      (extract_qa_pairs text) ∧
    List.IsSuffix
      ((qaFindAll "**Question**:" "**Answer**:" "**Question**" text).map
        (fun p => (pyStrip p.1, pyStrip p.2)))
      (extract_qa_pairs text) ∧
    (extract_qa_pairs text).length =
      (qaFindAll "Q:" "A:" "Q:" text).length +
      (qaFindAll "Question:" "Answer:" "Question:" text).length +
      (qaFindAll "**Question**:" "**Answer**:" "**Question**" text).length := by
  refine ⟨⟨(qaFindAll "Question:" "Answer:" "Question:" text).map
        (fun p => (pyStrip p.1, pyStrip p.2)) ++
      (qaFindAll "**Question**:" "**Answer**:" "**Question**" text).map
        (fun p => (pyStrip p.1, pyStrip p.2)), ?_⟩,
    ⟨(qaFindAll "Q:" "A:" "Q:" text).map (fun p => (pyStrip p.1, pyStrip p.2)) ++
      (qaFindAll "Question:" "Answer:" "Question:" text).map
        (fun p => (pyStrip p.1, pyStrip p.2)), ?_⟩, ?_⟩
  · rw [extract_qa_pairs, List.append_assoc]
  · rw [extract_qa_pairs, List.append_assoc]
  · simp [extract_qa_pairs]
    omega

/-! ## C1 — router auto-detection order -/

/-- A trivial splitter instance (whole text as one piece) for witnesses. -/
def idsplit : String → List String := fun s => [s]

/-- A raw text on which the counterexample to C1 fires: a Q&A pattern is
detected, extraction yields one pair, but the pair's question strips to empty. -/
def c1text : String := "Q: \t A: x"

/-- C1, counterexample: on `c1text` no table pattern fires, the Q&A pattern is
detected and extraction yields one pair — so the claim requires the router to
return Q&A chunks — yet the pair's stripped question is blank, the Q&A chunker
drops it, and the router falls through to the semantic strategy. -/
theorem c1_counterexample :
    is_table c1text = false ∧
    is_qa_format c1text = true ∧
    (extract_qa_pairs c1text).length = 1 ∧
    qa_chunk_from_text c1text "src" none [] = [] ∧
    (auto_detect_and_chunk idsplit idsplit idsplit 5000 c1text "src" none
      []).strategy_used = "semantic" := by
  refine ⟨by decide, by decide, by decide, by decide, by decide⟩

/-- C1 (amended): the auto-detection order is: table pattern → empty result
tagged `table_detected`; else Q&A pattern detected *and the Q&A chunking of
the text yields at least one chunk* (a pair surviving with non-blank stripped
question and answer) → those chunks tagged `qa`; else text longer than the
hierarchical threshold → hierarchical; else semantic — and the semantic
chunker returns no chunks on empty-or-whitespace input. -/
theorem c1_router_decision (split psplit csplit : String → List String)
    (thr : Nat) (text source : String) (website : Option String) (base : Meta) :
    (is_table text = true →
      auto_detect_and_chunk split psplit csplit thr text source website base =
        { chunks := [], strategy_used := "table_detected", parent_chunks := none }) ∧
    (is_table text = false → is_qa_format text = true →
      qa_chunk_from_text text source website base ≠ [] →
      auto_detect_and_chunk split psplit csplit thr text source website base =
        { chunks := (qa_chunk_from_text text source website base).map .qa
          strategy_used := "qa", parent_chunks := none }) ∧
    (is_table text = false →
      (is_qa_format text = false ∨ qa_chunk_from_text text source website base = []) →
      thr < text.length →
      auto_detect_and_chunk split psplit csplit thr text source website base =
        chunk_hierarchical psplit csplit text source base ∧
      (auto_detect_and_chunk split psplit csplit thr text source website
        base).strategy_used = "hierarchical") ∧
    (is_table text = false →
      (is_qa_format text = false ∨ qa_chunk_from_text text source website base = []) →
      ¬ thr < text.length →
      auto_detect_and_chunk split psplit csplit thr text source website base =
        chunk_semantic split text source base ∧
      (auto_detect_and_chunk split psplit csplit thr text source website
        base).strategy_used = "semantic") ∧
    (pyStrip text = "" → semantic_chunk split text source base = []) := by
  refine ⟨?_, ?_, ?_, ?_, ?_⟩
  · intro ht
    simp [auto_detect_and_chunk, ht]
  · intro ht hqa hne
    simp [auto_detect_and_chunk, ht, hqa, hne]
  · intro ht hq hlen
    have hcond : ¬ (is_qa_format text = true ∧
        qa_chunk_from_text text source website base ≠ []) := by
      rcases hq with h | h
      · simp [h]
      · simp [h]
    constructor
    · simp [auto_detect_and_chunk, ht, hcond, hlen]
    · simp [auto_detect_and_chunk, ht, hcond, hlen, chunk_hierarchical]
  · intro ht hq hlen
    have hcond : ¬ (is_qa_format text = true ∧
        qa_chunk_from_text text source website base ≠ []) := by
      rcases hq with h | h
      · simp [h]
      · simp [h]
    constructor
    · simp [auto_detect_and_chunk, ht, hcond, hlen]
    · simp [auto_detect_and_chunk, ht, hcond, hlen, chunk_semantic]
  · intro hstrip
    simp [semantic_chunk, hstrip]

/-- C1 witness: the amended decision chain applied at concrete texts hitting
each branch. -/
theorem c1_router_decision_witness :
    (is_table "|a|b|" = true ∧
      auto_detect_and_chunk idsplit idsplit idsplit 5000 "|a|b|" "s" none [] =
        { chunks := [], strategy_used := "table_detected", parent_chunks := none }) ∧
    (is_table "Q: q A: a" = false ∧ is_qa_format "Q: q A: a" = true ∧
      qa_chunk_from_text "Q: q A: a" "s" none [] ≠ [] ∧
      auto_detect_and_chunk idsplit idsplit idsplit 5000 "Q: q A: a" "s" none [] =
        { chunks := (qa_chunk_from_text "Q: q A: a" "s" none []).map .qa
          strategy_used := "qa", parent_chunks := none }) ∧
    ((auto_detect_and_chunk idsplit idsplit idsplit 5 "plain narrative" "s" none
        []).strategy_used = "hierarchical") ∧
    ((auto_detect_and_chunk idsplit idsplit idsplit 5000 "plain narrative" "s" none
        []).strategy_used = "semantic") ∧
    (pyStrip " \t " = "" ∧ semantic_chunk idsplit " \t " "s" [] = []) :=
  ⟨⟨by decide, (c1_router_decision idsplit idsplit idsplit 5000 "|a|b|" "s" none []).1
      (by decide)⟩,
   ⟨by decide, by decide, by decide,
     (c1_router_decision idsplit idsplit idsplit 5000 "Q: q A: a" "s" none []).2.1
       (by decide) (by decide) (by decide)⟩,
   ((c1_router_decision idsplit idsplit idsplit 5 "plain narrative" "s" none []).2.2.1
       (by decide) (Or.inl (by decide)) (by decide)).2,
   ((c1_router_decision idsplit idsplit idsplit 5000 "plain narrative" "s" none
       []).2.2.2.1 (by decide) (Or.inl (by decide)) (by decide)).2,
   ⟨by decide, (c1_router_decision idsplit idsplit idsplit 5000 " \t " "s" none
       []).2.2.2.2 (by decide)⟩⟩

/-! ## C4 — large-table splitting -/

theorem mget_append_right (base l : Meta) (k : String)
    (h : (mget l k).isSome) : mget (base ++ l) k = mget l k := by
  simp only [mget, List.reverse_append, List.find?_append]
  cases hf : (l.reverse.find? (fun p => p.1 = k)) with
  | none => simp [mget, hf] at h
  | some v => simp [hf]

/-- Consecutive fixed-size slices of a list, glued back, give the list. -/
theorem chunk_join {α : Type} (s : Nat) (hs : 0 < s) :
    ∀ (n : Nat) (l : List α), l.length ≤ n →
      ((List.range ((l.length + s - 1) / s)).map
        (fun j => (l.drop (j * s)).take s)).flatten = l := by
  intro n
  induction n with
  | zero =>
    intro l hl
    have hnil : l = [] := List.eq_nil_of_length_eq_zero (by omega)
    subst hnil
    have h0 : (([] : List α).length + s - 1) / s = 0 :=
      Nat.div_eq_of_lt (by simp; omega)
    rw [h0]
    simp
  | succ m ih =>
    intro l hl
    by_cases hnil : l = []
    · subst hnil
      have h0 : (([] : List α).length + s - 1) / s = 0 :=
        Nat.div_eq_of_lt (by simp; omega)
      rw [h0]
      simp
    · have hpos : 0 < l.length := List.length_pos.mpr hnil
      by_cases hle : l.length ≤ s
      · have hk : (l.length + s - 1) / s = 1 :=
          Nat.div_eq_of_lt_le (by omega) (by omega)
        have hr1 : List.range 1 = [0] := rfl
        rw [hk, hr1]
        simp [List.take_of_length_le hle]
      · have harg : l.length + s - 1 = ((l.length - s) + s - 1) + s := by omega
        have hk : (l.length + s - 1) / s = ((l.length - s) + s - 1) / s + 1 := by
          rw [harg, Nat.add_div_right _ hs]
        have hlen : (l.drop s).length = l.length - s := by simp
        have ihl : ((List.range (((l.drop s).length + s - 1) / s)).map
            (fun j => ((l.drop s).drop (j * s)).take s)).flatten = l.drop s := by
          apply ih (l.drop s)
          rw [hlen]
          omega
        rw [hlen] at ihl
        have hcomp : (List.map Nat.succ (List.range (((l.length - s) + s - 1) / s))).map
            (fun j => (l.drop (j * s)).take s) =
            (List.range (((l.length - s) + s - 1) / s)).map
              (fun j => ((l.drop s).drop (j * s)).take s) := by
          rw [List.map_map]
          apply List.map_congr_left
          intro j _
          simp only [Function.comp_apply]
          have hsucc : Nat.succ j * s = s + j * s := by
            rw [Nat.succ_mul]
            omega
          rw [hsucc, List.drop_drop]
        rw [hk, List.range_succ_eq_map, List.map_cons, List.flatten_cons, hcomp, ihl]
        simp

theorem rows_per_chunk_pos (rows : List String) : 0 < rows_per_chunk rows :=
  Nat.lt_of_lt_of_le (by norm_num) (Nat.le_max_left 10 (rows.length / 3))

theorem mul_lt_of_lt_ceil_div {L s j : Nat} (hs : 0 < s)
    (hj : j < (L + s - 1) / s) : j * s < L := by
  by_contra hcon
  push_neg at hcon
  have hle : L + s - 1 ≤ (s - 1) + j * s := by omega
  have hdiv : (L + s - 1) / s ≤ ((s - 1) + j * s) / s := Nat.div_le_div_right hle
  rw [Nat.add_mul_div_right _ _ hs] at hdiv
  have h0 : (s - 1) / s = 0 := Nat.div_eq_of_lt (by omega)
  omega

theorem part_slice_ne_nil (rows : List String) (j : Nat)
    (hj : j < total_parts_of rows) : part_slice rows j ≠ [] := by
  have hpos := rows_per_chunk_pos rows
  have hlt : j * rows_per_chunk rows < rows.length :=
    mul_lt_of_lt_ceil_div hpos hj
  have hlen : (part_slice rows j).length =
      min (rows_per_chunk rows) (rows.length - j * rows_per_chunk rows) := by
    simp [part_slice]
  intro hnil
  rw [hnil] at hlen
  simp at hlen
  omega

/-- The `j * rows_per_chunk`-indexed loop body of `_split_large_table`,
extracted for reasoning about the produced parts. -/
def split_part (hashFn : String → Nat) (table : ExtractedTable)
    (source : String) (base : Meta) (header separator : String)
    (rows : List String) (i : Nat) : TableChunk :=
  let chunk_rows := (rows.drop i).take (rows_per_chunk rows)
  let chunk_markdown := joinNl ([header, separator] ++ chunk_rows)
  let part_num := i / rows_per_chunk rows + 1
  let chunk_table : ExtractedTable :=
    { markdown := chunk_markdown
      description := table.description ++ " (Part " ++ natRepr part_num ++
        "/" ++ natRepr (total_parts_of rows) ++ ")"
      title := (optTruthy table.title).map
        (fun t => t ++ " (Part " ++ natRepr part_num ++ ")")
      rows := chunk_rows.length
      columns := table.columns
      context := table.context }
  { content := format_as_context chunk_table
    chunk_id := source ++ "_table_" ++ natRepr (hashFn chunk_markdown % 10000) ++
      "_part" ++ natRepr part_num
    table := chunk_table
    metadata := base ++
      [("source", .s source), ("chunk_type", .s "table"),
       ("part", .n part_num), ("total_parts", .n (total_parts_of rows)),
       ("rows", .n chunk_rows.length), ("columns", .n table.columns)] }

theorem split_large_table_eq (hashFn : String → Nat) (table : ExtractedTable)
    (source : String) (base : Meta) (header separator : String)
    (rows : List String)
    (hmd : pyLines table.markdown = header :: separator :: rows) :
    split_large_table hashFn table source base =
      (pyRange3 rows.length (rows_per_chunk rows)).map
        (split_part hashFn table source base header separator rows) := by
  rw [split_large_table, hmd]
  rfl

/-- C4: splitting a large markdown table cuts its data rows (the lines after
the header and separator) into consecutive slices of `max(10, total_rows/3)`
rows; every part is nonempty, re-serialized under the same header and
separator line, numbered `j+1` with `total_parts = ceil(total_rows /
rows_per_part)` in its metadata, and the concatenation of all parts' data rows
in part order is exactly the original row sequence. -/
theorem c4_split_large_table (hashFn : String → Nat) (table : ExtractedTable)
    (source : String) (base : Meta) (header separator : String)
    (rows : List String)
    (hmd : pyLines table.markdown = header :: separator :: rows) :
    (split_large_table hashFn table source base).length = total_parts_of rows ∧
    (∀ j : Nat, j < total_parts_of rows →
      ∃ part : TableChunk,
        (split_large_table hashFn table source base).get? j = some part ∧
        mget part.metadata "part" = some (.n (j + 1)) ∧
        mget part.metadata "total_parts" = some (.n (total_parts_of rows)) ∧
        part.table.rows = (part_slice rows j).length ∧
        mget part.metadata "rows" = some (.n (part_slice rows j).length) ∧
        mget part.metadata "columns" = some (.n table.columns) ∧
        part.table.markdown = joinNl ([header, separator] ++ part_slice rows j) ∧
        part_slice rows j ≠ []) ∧
    ((List.range (total_parts_of rows)).map (part_slice rows)).flatten = rows := by
  have hpos := rows_per_chunk_pos rows
  have hsplit := split_large_table_eq hashFn table source base header separator rows hmd
  refine ⟨?_, ?_, ?_⟩
  · rw [hsplit]
    simp [pyRange3, total_parts_of]
  · intro j hj
    have hget : (pyRange3 rows.length (rows_per_chunk rows)).get? j =
        some (j * rows_per_chunk rows) := by
      rw [pyRange3]
      rw [List.get?_map]
      rw [List.get?_range (by simpa [total_parts_of] using hj)]
      rfl
    have hpart : (split_large_table hashFn table source base).get? j =
        some (split_part hashFn table source base header separator rows
          (j * rows_per_chunk rows)) := by
      rw [hsplit, List.get?_map, hget]
      rfl
    refine ⟨_, hpart, ?_, ?_, ?_, ?_, ?_, ?_, part_slice_ne_nil rows j hj⟩
    · show mget (base ++ _) "part" = _
      rw [mget_append_right _ _ _ (by rfl)]
      rw [show j * rows_per_chunk rows / rows_per_chunk rows = j from
        Nat.mul_div_cancel j hpos]
      rfl
    · show mget (base ++ _) "total_parts" = _
      rw [mget_append_right _ _ _ (by rfl)]
      rfl
    · rfl
    · show mget (base ++ _) "rows" = _
      rw [mget_append_right _ _ _ (by rfl)]
      rfl
    · show mget (base ++ _) "columns" = _
      rw [mget_append_right _ _ _ (by rfl)]
      rfl
    · rfl
  · have hcj := chunk_join (rows_per_chunk rows) hpos rows.length rows (Nat.le_refl _)
    simpa [total_parts_of, part_slice] using hcj

/-- A concrete 12-row markdown table for the C4 witness. -/
def c4table : ExtractedTable :=
  { markdown := joinNl (["| h |", "| --- |"] ++ List.replicate 12 "| a |")
    description := "d", title := none, rows := 12, columns := 1 }

/-- C4 witness: the splitting theorem applied to a concrete 12-row table
(`rows_per_chunk = max(10, 12 // 3) = 10`, two parts). -/
theorem c4_split_large_table_witness :
    pyLines c4table.markdown = "| h |" :: "| --- |" :: List.replicate 12 "| a |" ∧
    (split_large_table (fun _ => 0) c4table "s" []).length =
      total_parts_of (List.replicate 12 "| a |") ∧
    ((List.range (total_parts_of (List.replicate 12 "| a |"))).map
      (part_slice (List.replicate 12 "| a |"))).flatten =
      List.replicate 12 "| a |" ∧
    (0 : Nat) < total_parts_of (List.replicate 12 "| a |") ∧
    part_slice (List.replicate 12 "| a |") 0 ≠ [] := by
  have h := c4_split_large_table (fun _ => 0) c4table "s" [] "| h |" "| --- |"
    (List.replicate 12 "| a |") (by decide)
  refine ⟨by decide, h.1, h.2.2, by decide, ?_⟩
  obtain ⟨part, _, _, _, _, _, _, _, hne⟩ := h.2.1 0 (by decide)
  exact hne

/-! ## C9 — `ExtractedTable` row/column invariants -/

/-- The claim's "number of data rows in the markdown text": the lines after
the header and separator lines. -/
def countDataRows (md : String) : Nat := ((pyLines md).drop 2).length

/-- The claim's "header cell count" of a markdown table, read off the first
line with the repository's own header parsing convention
(`[c.strip() for c in header_line.split("|") if c.strip()]`). -/
def headerCellCount (md : String) : Nat :=
  match pyLines md with
  | [] => 0
  | h :: _ =>
    (((splitOnChar '|' h.data).map (fun cell => pyStrip (String.mk cell))).filter
      (fun cell => cell ≠ "")).length

theorem splitOnChar_ne_nil (sep : Char) (cs : List Char) :
    splitOnChar sep cs ≠ [] := by
  cases cs with
  | nil => simp [splitOnChar]
  | cons c rest =>
    by_cases h : c = sep
    · simp [splitOnChar, h]
    · simp only [splitOnChar, h, if_false]
      cases splitOnChar sep rest <;> simp

theorem splitOnChar_no_sep (sep : Char) (cs : List Char)
    (h : ∀ a ∈ cs, a ≠ sep) : splitOnChar sep cs = [cs] := by
  induction cs with
  | nil => rfl
  | cons c rest ih =>
    have hc : c ≠ sep := h c (List.mem_cons_self c rest)
    have hrest := ih (fun a ha => h a (List.mem_cons_of_mem c ha))
    simp [splitOnChar, hc, hrest]

theorem splitOnChar_append_left (sep : Char) (xs ys : List Char)
    (h : ∀ a ∈ xs, a ≠ sep) :
    splitOnChar sep (xs ++ ys) =
      (xs ++ (splitOnChar sep ys).headI) :: (splitOnChar sep ys).tail := by
  induction xs with
  | nil =>
    simp only [List.nil_append]
    cases hy : splitOnChar sep ys with
    | nil => exact absurd hy (splitOnChar_ne_nil sep ys)
    | cons a t => simp
  | cons x xs ih =>
    have hx : x ≠ sep := h x (List.mem_cons_self x xs)
    have hxs := ih (fun a ha => h a (List.mem_cons_of_mem x ha))
    simp only [List.cons_append, splitOnChar, hx, if_false]
    have hae : xs.append ys = xs ++ ys := rfl
    rw [hae, hxs]

theorem splitOnChar_join (sep : Char) :
    ∀ (parts : List (List Char)), parts ≠ [] →
      (∀ p ∈ parts, ∀ a ∈ p, a ≠ sep) →
      splitOnChar sep (joinList [sep] parts) = parts := by
  intro parts
  induction parts with
  | nil => intro h; exact absurd rfl h
  | cons p rest ih =>
    intro _ hall
    cases rest with
    | nil =>
      simp only [joinList]
      exact splitOnChar_no_sep sep p (hall p (List.mem_cons_self p []))
    | cons q t =>
      have hjoin : joinList [sep] (p :: q :: t) = p ++ (sep :: joinList [sep] (q :: t)) := by
        simp [joinList]
      rw [hjoin, splitOnChar_append_left sep p _ (hall p (List.mem_cons_self p _))]
      have hrest : splitOnChar sep (sep :: joinList [sep] (q :: t)) =
          [] :: splitOnChar sep (joinList [sep] (q :: t)) := by
        simp [splitOnChar]
      rw [hrest, ih (by simp) (fun r hr a ha => hall r (List.mem_cons_of_mem p hr) a ha)]
      simp

/-- `"\n".join` then `split("\n")` round-trips on newline-free lines. -/
theorem pyLines_joinNl (lines : List String) (hne : lines ≠ [])
    (h : ∀ l ∈ lines, ∀ a ∈ l.data, a ≠ '\n') :
    pyLines (joinNl lines) = lines := by
  have hjoin : (joinNl lines).data = joinList ['\n'] (lines.map String.data) := by
    simp [joinNl, joinSep]
  rw [pyLines, hjoin, splitOnChar_join '\n' (lines.map String.data)
    (by simpa using hne)
    (by intro p hp a ha
        obtain ⟨l, hl, rfl⟩ := List.mem_map.mp hp
        exact h l hl a ha)]
  rw [List.map_map]
  have : (fun cs => String.mk cs) ∘ String.data = id := by
    funext s
    exact strMk_data s
  rw [this, List.map_id]

/-- Strip only trailing whitespace. -/
def stripEnd (cs : List Char) : List Char :=
  (cs.reverse.dropWhile pyIsSpace).reverse

theorem pyStripL_eq_stripEnd (cs : List Char) :
    pyStripL cs = stripEnd (cs.dropWhile pyIsSpace) := rfl

theorem stripEnd_append_space (cs : List Char) :
    stripEnd (cs ++ [' ']) = stripEnd cs := by
  simp [stripEnd, List.dropWhile_cons, pyIsSpace]

theorem pyStripL_cons_space (cs : List Char) :
    pyStripL (' ' :: cs) = pyStripL cs := by
  simp [pyStripL, List.dropWhile_cons, pyIsSpace]

theorem pyStripL_append_space (cs : List Char) :
    pyStripL (cs ++ [' ']) = pyStripL cs := by
  rw [pyStripL_eq_stripEnd, pyStripL_eq_stripEnd, List.dropWhile_append]
  by_cases h : (cs.dropWhile pyIsSpace).isEmpty
  · rw [if_pos h]
    have h2 : cs.dropWhile pyIsSpace = [] := by
      cases hc : cs.dropWhile pyIsSpace
      · rfl
      · rw [hc] at h
        simp at h
    rw [h2]
    rfl
  · rw [if_neg h]
    exact stripEnd_append_space _

/-- Stripping a cell padded with single spaces gives the stripped cell. -/
theorem pyStrip_pad (h : String) :
    pyStrip (String.mk (' ' :: (h.data ++ [' ']))) = pyStrip h := by
  simp [pyStrip, pyStripL_cons_space, pyStripL_append_space]

theorem split_cells_aux (sep3 : List Char) (hsep3 : sep3 = [' ', '|', ' ']) :
    ∀ (t : List String) (h : String),
      (∀ x ∈ h :: t, ∀ a ∈ x.data, a ≠ '|') →
      splitOnChar '|' ((' ' :: (joinList sep3 ((h :: t).map String.data))) ++ [' ', '|']) =
        ((h :: t).map (fun x => ' ' :: (x.data ++ [' ']))) ++ [[]] := by
  intro t
  induction t with
  | nil =>
    intro h hp
    have hx : ∀ a ∈ (' ' :: h.data) ++ [' '], a ≠ '|' := by
      intro a ha
      simp at ha
      rcases ha with ha | ha | ha
      · simp [ha]
      · exact hp h (List.mem_cons_self h []) a ha
      · simp [ha]
    have hshape : (' ' :: (joinList sep3 ([h].map String.data))) ++ [' ', '|'] =
        ((' ' :: h.data) ++ [' ']) ++ ['|'] := by
      simp [joinList]
    rw [hshape, splitOnChar_append_left '|' _ _ hx]
    simp [splitOnChar]
  | cons h2 t2 ih =>
    intro h hp
    have hx : ∀ a ∈ (' ' :: h.data) ++ [' '], a ≠ '|' := by
      intro a ha
      simp at ha
      rcases ha with ha | ha | ha
      · simp [ha]
      · exact hp h (List.mem_cons_self h _) a ha
      · simp [ha]
    have hshape : (' ' :: (joinList sep3 ((h :: h2 :: t2).map String.data))) ++ [' ', '|'] =
        ((' ' :: h.data) ++ [' ']) ++
          ('|' :: ((' ' :: (joinList sep3 ((h2 :: t2).map String.data))) ++ [' ', '|'])) := by
      simp [joinList, hsep3]
    rw [hshape, splitOnChar_append_left '|' _ _ hx]
    have hrec := ih h2 (fun x hx2 a ha => hp x (List.mem_cons_of_mem h hx2) a ha)
    have hstep : splitOnChar '|'
        ('|' :: ((' ' :: (joinList sep3 ((h2 :: t2).map String.data))) ++ [' ', '|'])) =
        [] :: (((h2 :: t2).map (fun x => ' ' :: (x.data ++ [' ']))) ++ [[]]) := by
      rw [show splitOnChar '|'
          ('|' :: ((' ' :: (joinList sep3 ((h2 :: t2).map String.data))) ++ [' ', '|'])) =
          [] :: splitOnChar '|'
            ((' ' :: (joinList sep3 ((h2 :: t2).map String.data))) ++ [' ', '|']) from by
        simp [splitOnChar]]
      rw [hrec]
    rw [hstep]
    simp

/-- The pipe-split of a serialized markdown row over pipe-free cells. -/
theorem split_mdRow (hs : List String) (hne : hs ≠ [])
    (hp : ∀ x ∈ hs, ∀ a ∈ x.data, a ≠ '|') :
    splitOnChar '|' (mdRow hs).data =
      [] :: (hs.map (fun x => ' ' :: (x.data ++ [' ']))) ++ [[]] := by
  cases hs with
  | nil => exact absurd rfl hne
  | cons h t =>
    have hshape : (mdRow (h :: t)).data =
        '|' :: ((' ' :: (joinList [' ', '|', ' '] ((h :: t).map String.data))) ++ [' ', '|']) := by
      simp [mdRow, joinSep, String.data_append]
    rw [hshape]
    rw [show splitOnChar '|'
        ('|' :: ((' ' :: (joinList [' ', '|', ' '] ((h :: t).map String.data))) ++ [' ', '|'])) =
        [] :: splitOnChar '|'
          ((' ' :: (joinList [' ', '|', ' '] ((h :: t).map String.data))) ++ [' ', '|']) from by
      simp [splitOnChar]]
    rw [split_cells_aux [' ', '|', ' '] rfl t h hp]
    simp

/-- Counting the non-blank stripped cells of a serialized markdown row over
pipe-free, non-blank cells gives the number of cells. -/
theorem mdRow_cellCount (hs : List String)
    (hp : ∀ x ∈ hs, ∀ a ∈ x.data, a ≠ '|')
    (hnb : ∀ x ∈ hs, pyStrip x ≠ "") :
    (((splitOnChar '|' (mdRow hs).data).map (fun cell => pyStrip (String.mk cell))).filter
      (fun cell => cell ≠ "")).length = hs.length := by
  cases hs with
  | nil => decide
  | cons h t =>
    rw [split_mdRow (h :: t) (by simp) hp]
    have hmid : ((h :: t).map (fun x => ' ' :: (x.data ++ [' ']))).map
        (fun cell => pyStrip (String.mk cell)) = (h :: t).map (fun x => pyStrip x) := by
      rw [List.map_map]
      apply List.map_congr_left
      intro x _
      simpa using pyStrip_pad x
    have hstrip0 : pyStrip (String.mk []) = "" := rfl
    rw [show ([] :: ((h :: t).map (fun x => ' ' :: (x.data ++ [' ']))) ++ [[]] : List (List Char)) =
      [[]] ++ ((h :: t).map (fun x => ' ' :: (x.data ++ [' ']))) ++ [[]] from by simp]
    rw [List.map_append, List.map_append, hmid]
    rw [List.filter_append, List.filter_append]
    have hblank : (([[]] : List (List Char)).map
        (fun cell => pyStrip (String.mk cell))).filter (fun cell => cell ≠ "") = [] := by
      decide
    rw [hblank]
    have hkeep : ((h :: t).map (fun x => pyStrip x)).filter (fun cell => cell ≠ "") =
        (h :: t).map (fun x => pyStrip x) := by
      rw [List.filter_eq_self]
      intro a ha
      obtain ⟨x, hx, rfl⟩ := List.mem_map.mp ha
      simpa using hnb x hx
    rw [hkeep]
    simp

theorem mem_joinList {a : Char} (sep : List Char) :
    ∀ (ps : List (List Char)), a ∈ joinList sep ps →
      a ∈ sep ∨ ∃ p ∈ ps, a ∈ p := by
  intro ps
  induction ps with
  | nil => intro h; simp [joinList] at h
  | cons p rest ih =>
    intro h
    cases rest with
    | nil =>
      simp only [joinList] at h
      exact Or.inr ⟨p, List.mem_cons_self p [], h⟩
    | cons q t =>
      rw [show joinList sep (p :: q :: t) = p ++ sep ++ joinList sep (q :: t) from rfl] at h
      rcases List.mem_append.mp h with h1 | h2
      · rcases List.mem_append.mp h1 with h3 | h4
        · exact Or.inr ⟨p, List.mem_cons_self p _, h3⟩
        · exact Or.inl h4
      · rcases ih h2 with h5 | ⟨r, hr, har⟩
        · exact Or.inl h5
        · exact Or.inr ⟨r, List.mem_cons_of_mem p hr, har⟩

theorem mdRow_no_newline (cells : List String)
    (h : ∀ c ∈ cells, ∀ a ∈ c.data, a ≠ '\n') :
    ∀ a ∈ (mdRow cells).data, a ≠ '\n' := by
  intro a ha
  have hdata : (mdRow cells).data =
      ['|', ' '] ++ joinList [' ', '|', ' '] (cells.map String.data) ++ [' ', '|'] := by
    simp [mdRow, joinSep, String.data_append]
  rw [hdata] at ha
  rcases List.mem_append.mp ha with h1 | h2
  · rcases List.mem_append.mp h1 with h3 | h4
    · intro he
      subst he
      simp at h3
    · rcases mem_joinList _ _ h4 with h5 | ⟨p, hp, hap⟩
      · intro he
        subst he
        simp at h5
      · obtain ⟨c, hc, rfl⟩ := List.mem_map.mp hp
        exact h c hc a hap
  · intro he
    subst he
    simp at h2

theorem escCell_no_newline (cell : String) :
    ∀ a ∈ (escCell cell).data, a ≠ '\n' := by
  intro a ha
  simp only [escCell] at ha
  obtain ⟨c, _, hc⟩ := List.mem_flatMap.mp ha
  by_cases h1 : c = '|'
  · rw [if_pos h1] at hc
    intro he
    subst he
    simp at hc
  · rw [if_neg h1] at hc
    by_cases h2 : c = '\n'
    · rw [if_pos h2] at hc
      intro he
      subst he
      simp at hc
    · rw [if_neg h2] at hc
      simp at hc
      rw [hc]
      exact h2

/-- The serialized table of `convert_to_markdown` splits back into its lines,
and counting gives the data-row and header-cell counts, provided header cells
are pipe-free, newline-free and non-blank. -/
theorem convert_core (headers : List String) (data : List (List String))
    (hh : ∀ x ∈ headers, (∀ a ∈ x.data, a ≠ '|' ∧ a ≠ '\n') ∧ pyStrip x ≠ "") :
    countDataRows (joinNl (mdRow headers :: mdRow (headers.map fun _ => "---") ::
      data.map (fun row => mdRow ((List.range headers.length).map
        (fun i => escCell ((row.get? i).getD "")))))) = data.length ∧
    headerCellCount (joinNl (mdRow headers :: mdRow (headers.map fun _ => "---") ::
      data.map (fun row => mdRow ((List.range headers.length).map
        (fun i => escCell ((row.get? i).getD "")))))) = headers.length := by
  have hlines : pyLines (joinNl (mdRow headers :: mdRow (headers.map fun _ => "---") ::
      data.map (fun row => mdRow ((List.range headers.length).map
        (fun i => escCell ((row.get? i).getD "")))))) =
      mdRow headers :: mdRow (headers.map fun _ => "---") ::
        data.map (fun row => mdRow ((List.range headers.length).map
          (fun i => escCell ((row.get? i).getD "")))) := by
    apply pyLines_joinNl _ (by simp)
    intro l hl
    rcases List.mem_cons.mp hl with rfl | hl2
    · exact mdRow_no_newline headers (fun c hc a ha => ((hh c hc).1 a ha).2)
    rcases List.mem_cons.mp hl2 with rfl | hl3
    · apply mdRow_no_newline
      intro c hc a ha
      obtain ⟨x, _, rfl⟩ := List.mem_map.mp hc
      have ha2 : a = '-' := by
        simpa using ha
      simp [ha2]
    · obtain ⟨row, _, rfl⟩ := List.mem_map.mp hl3
      apply mdRow_no_newline
      intro c hc a ha
      obtain ⟨i, _, rfl⟩ := List.mem_map.mp hc
      exact escCell_no_newline _ a ha
  constructor
  · rw [countDataRows, hlines]
    simp
  · rw [headerCellCount, hlines]
    exact mdRow_cellCount headers (fun x hx a ha => ((hh x hx).1 a ha).1)
      (fun x hx => (hh x hx).2)

/-- A table detected from tab-separated text whose header cell `a|b` contains
a pipe. -/
def c9tsvText : String := "a|b\tc\n1\t2"

/-- C9, counterexample: the tab-separated detector on `c9tsvText` produces one
table with `column_count = 2`, but its markdown header line parses into three
header cells (the pipe inside the header cell `a|b` splits it); the row-count
half of the invariant holds here (one data row), the column half fails. -/
theorem c9_counterexample :
    (find_tsv_tables c9tsvText).map
      (fun t => (t.rows, countDataRows t.markdown, t.columns,
        headerCellCount t.markdown)) = [(1, 1, 2, 3)] := by decide

/-- C9 (amended): `convert_to_markdown` (2D-data conversion, also the backend
of tab-separated detection) satisfies `rows = number of data rows in the
markdown` and `columns = number of header cells in the markdown` provided
every header cell is pipe-free, newline-free and non-blank after stripping —
with no condition on the data cells, which are escaped.  Detector-produced
tables can violate the column half when a header cell contains a pipe. -/
theorem c9_convert_to_markdown :
    (∀ (headers0 : Option (List String)) (title : Option String),
      (convert_to_markdown [] headers0 title).rows =
        countDataRows (convert_to_markdown [] headers0 title).markdown ∧
      (convert_to_markdown [] headers0 title).columns =
        headerCellCount (convert_to_markdown [] headers0 title).markdown) ∧
    (∀ (first : List String) (tail : List (List String)) (headers : List String)
        (title : Option String),
      (∀ x ∈ headers, (∀ a ∈ x.data, a ≠ '|' ∧ a ≠ '\n') ∧ pyStrip x ≠ "") →
      (convert_to_markdown (first :: tail) (some headers) title).rows =
        countDataRows (convert_to_markdown (first :: tail) (some headers) title).markdown ∧
      (convert_to_markdown (first :: tail) (some headers) title).columns =
        headerCellCount (convert_to_markdown (first :: tail) (some headers) title).markdown) ∧
    (∀ (first : List String) (tail : List (List String)) (title : Option String),
      (∀ x ∈ first, (∀ a ∈ x.data, a ≠ '|' ∧ a ≠ '\n') ∧ pyStrip x ≠ "") →
      (convert_to_markdown (first :: tail) none title).rows =
        countDataRows (convert_to_markdown (first :: tail) none title).markdown ∧
      (convert_to_markdown (first :: tail) none title).columns =
        headerCellCount (convert_to_markdown (first :: tail) none title).markdown) := by
  refine ⟨fun _ _ => ⟨rfl, rfl⟩, ?_, ?_⟩
  · intro first tail headers title hh
    have hcore := convert_core headers (first :: tail) hh
    exact ⟨hcore.1.symm, hcore.2.symm⟩
  · intro first tail title hh
    have hcore := convert_core first tail hh
    exact ⟨hcore.1.symm, hcore.2.symm⟩

/-- C9 witness: the amended invariant applied at concrete tables, with and
without explicit headers. -/
theorem c9_convert_to_markdown_witness :
    (∀ x ∈ (["a", "b"] : List String),
      (∀ a ∈ x.data, a ≠ '|' ∧ a ≠ '\n') ∧ pyStrip x ≠ "") ∧
    ((convert_to_markdown [["1", "2"], ["3"]] (some ["a", "b"]) none).rows =
        countDataRows (convert_to_markdown [["1", "2"], ["3"]]
          (some ["a", "b"]) none).markdown ∧
      (convert_to_markdown [["1", "2"], ["3"]] (some ["a", "b"]) none).columns =
        headerCellCount (convert_to_markdown [["1", "2"], ["3"]]
          (some ["a", "b"]) none).markdown) ∧
    ((convert_to_markdown [["h1", "h2"], ["4", "5"]] none none).rows =
        countDataRows (convert_to_markdown [["h1", "h2"], ["4", "5"]] none none).markdown ∧
      (convert_to_markdown [["h1", "h2"], ["4", "5"]] none none).columns =
        headerCellCount (convert_to_markdown [["h1", "h2"], ["4", "5"]] none none).markdown) :=
  ⟨by decide,
    c9_convert_to_markdown.2.1 ["1", "2"] [["3"]] ["a", "b"] none (by decide),
    c9_convert_to_markdown.2.2 ["h1", "h2"] [["4", "5"]] none (by decide)⟩

/-! ## C3 — retrieval ordering and stability -/

/-- The search comparison: higher similarity first. -/
def scoreDesc (a b : SearchResult) : Bool := decide (b.score ≤ a.score)

theorem scoreDesc_trans (a b c : SearchResult) :
    scoreDesc a b → scoreDesc b c → scoreDesc a c := by
  simp only [scoreDesc, decide_eq_true_eq]
  intro h1 h2
  exact le_trans h2 h1

theorem scoreDesc_total (a b : SearchResult) : scoreDesc a b || scoreDesc b a := by
  simp only [scoreDesc]
  rcases le_total a.score b.score with h | h
  · simp [h]
  · simp [h]

/-- C3: retrieval (with a successful embedding) returns exactly the stably
sorted search results, converted in order: the scores are non-strictly
descending, and any equal-score sublist of the oracle's concatenated output
survives, in its original order, into the sorted list that `retrieve` maps
over and truncates. -/
theorem c3_retrieve_sorted (colls : List (String × Except String (List OracleRow)))
    (top_k : Nat) :
    retrieve (.ok ()) colls top_k =
      .ok ((((search_all_results colls).mergeSort scoreDesc).take top_k).map
        to_retrieved) ∧
    (∀ docs : List RetrievedDocument, retrieve (.ok ()) colls top_k = .ok docs →
      docs.Pairwise (fun a b => b.score ≤ a.score)) ∧
    (∀ c : List SearchResult, c.Sublist (search_all_results colls) →
      (∀ a ∈ c, ∀ b ∈ c, a.score = b.score) →
      c.Sublist ((search_all_results colls).mergeSort scoreDesc)) := by
  refine ⟨rfl, ?_, ?_⟩
  · intro docs hdocs
    have hdocs2 : docs = (((search_all_results colls).mergeSort scoreDesc).take
        top_k).map to_retrieved := by
      simpa [retrieve, chroma_search, scoreDesc] using hdocs.symm
    subst hdocs2
    have hsorted : ((search_all_results colls).mergeSort scoreDesc).Pairwise
        (fun a b => scoreDesc a b) :=
      List.sorted_mergeSort scoreDesc_trans scoreDesc_total _
    have htake : (((search_all_results colls).mergeSort scoreDesc).take
        top_k).Pairwise (fun a b => scoreDesc a b) :=
      hsorted.sublist (List.take_sublist _ _)
    rw [List.pairwise_map]
    apply htake.imp
    intro a b h
    simpa [scoreDesc, to_retrieved] using h
  · intro c hsub heq
    apply List.sublist_mergeSort scoreDesc_trans scoreDesc_total _ hsub
    apply List.Pairwise.imp_of_mem _ (List.pairwise_of_forall_mem_list
      (fun a ha b hb => heq a ha b hb))
    intro a b ha hb h
    simp [scoreDesc, h]

/-- An oracle row with distance `d` and id `id` for the C3 witness. -/
def owRow (d : ℚ) (id : String) : OracleRow :=
  { doc := "t", meta := [], dist := d, id := id }

/-- A three-collection oracle: one collection fails, two succeed, with a
score tie between the first and last surviving rows. -/
def c3colls : List (String × Except String (List OracleRow)) :=
  [("A", .ok [owRow (2 / 5) "r1", owRow (1 / 5) "r2"]),
   ("B", .error "boom"),
   ("C", .ok [owRow (2 / 5) "r3"])]

/-- The converted search results of `c3colls`, in oracle order. -/
def c3s (d : ℚ) (id coll : String) : SearchResult :=
  { content := "t", chunk_id := id, score := 1 - d,
    metadata := [("collection", .s coll)] }

theorem c3colls_all : search_all_results c3colls =
    [c3s (2 / 5) "r1" "A", c3s (1 / 5) "r2" "A", c3s (2 / 5) "r3" "C"] := rfl

/-- C3 witness: the ordering theorem applied to `c3colls`, instantiating the
stability clause at the tied pair (first and third results). -/
theorem c3_retrieve_sorted_witness :
    ([c3s (2 / 5) "r1" "A", c3s (2 / 5) "r3" "C"].Sublist
      (search_all_results c3colls)) ∧
    (∀ a ∈ [c3s (2 / 5) "r1" "A", c3s (2 / 5) "r3" "C"],
      ∀ b ∈ [c3s (2 / 5) "r1" "A", c3s (2 / 5) "r3" "C"], a.score = b.score) ∧
    ([c3s (2 / 5) "r1" "A", c3s (2 / 5) "r3" "C"].Sublist
      ((search_all_results c3colls).mergeSort scoreDesc)) ∧
    retrieve (.ok ()) c3colls 5 =
      .ok ((((search_all_results c3colls).mergeSort scoreDesc).take 5).map
        to_retrieved) := by
  have hsub : [c3s (2 / 5) "r1" "A", c3s (2 / 5) "r3" "C"].Sublist
      (search_all_results c3colls) := by
    rw [c3colls_all]
    apply List.Sublist.cons₂
    apply List.Sublist.cons
    exact List.Sublist.refl _
  have heq : ∀ a ∈ [c3s (2 / 5) "r1" "A", c3s (2 / 5) "r3" "C"],
      ∀ b ∈ [c3s (2 / 5) "r1" "A", c3s (2 / 5) "r3" "C"], a.score = b.score := by
    intro a ha b hb
    rcases List.mem_cons.mp ha with rfl | ha2
    · rcases List.mem_cons.mp hb with rfl | hb2
      · rfl
      · rcases List.mem_cons.mp hb2 with rfl | hb3
        · rfl
        · simp at hb3
    · rcases List.mem_cons.mp ha2 with rfl | ha3
      · rcases List.mem_cons.mp hb with rfl | hb2
        · rfl
        · rcases List.mem_cons.mp hb2 with rfl | hb3
          · rfl
          · simp at hb3
      · simp at ha3
  exact ⟨hsub, heq, (c3_retrieve_sorted c3colls 5).2.2 _ hsub heq,
    (c3_retrieve_sorted c3colls 5).1⟩

/-! ## C7 — oracle failure handling -/

/-- A pure prompt builder for C7 instances. -/
def cprompts : String → String → String → String × String :=
  fun context question _ => ("sys", context ++ question)

/-- An always-succeeding language model. -/
def okLLM : String → String → Except String String := fun _ _ => .ok "answer"

/-- An always-failing language model. -/
def failLLM (e : String) : String → String → Except String String :=
  fun _ _ => .error e

/-- C7, counterexample: with the oracle `c3colls`, whose collection `"B"`
raises, the chain still answers — the per-collection `try/except` inside
`ChromaManager.search` swallows the vector-store failure, so no terminal
error reaches the caller and a (partial) answer is produced. -/
theorem c7_counterexample :
    (("B", (.error "boom" : Except String (List OracleRow))) ∈ c3colls) ∧
    (∃ resp, rag_chain_query (.ok ()) c3colls cprompts okLLM "q" 5 = .ok resp) := by
  constructor
  · simp [c3colls]
  · exact ⟨_, rfl⟩

/-- C7 (amended): a failed query-embedding call or a failed language-model
call is surfaced, unretried, as the sole terminal error of the request; but a
per-collection vector-store query failure is caught and skipped, its
collection simply contributing no results. -/
theorem c7_oracle_failures :
    (∀ (e : String) (colls : List (String × Except String (List OracleRow)))
        (prompts : String → String → String → String × String)
        (llm : String → String → Except String String) (q : String) (k : Nat),
      rag_chain_query (.error e) colls prompts llm q k = .error e) ∧
    (∀ (e : String) (colls : List (String × Except String (List OracleRow)))
        (prompts : String → String → String → String × String)
        (q : String) (k : Nat) (llm : String → String → Except String String),
      (∀ s u, llm s u = .error e) →
      rag_chain_query (.ok ()) colls prompts llm q k = .error e) ∧
    (∀ (name e : String) (rest : List (String × Except String (List OracleRow))),
      search_all_results ((name, .error e) :: rest) = search_all_results rest) := by
  refine ⟨?_, ?_, ?_⟩
  · intro e colls prompts llm q k
    rfl
  · intro e colls prompts q k llm h
    simp only [rag_chain_query, retrieve, chroma_search, h]
    rfl
  · intro name e rest
    simp [search_all_results]

/-- C7 witness: the failure theorem applied at concrete oracles. -/
theorem c7_oracle_failures_witness :
    rag_chain_query (.error "embed down") c3colls cprompts okLLM "q" 5 =
      .error "embed down" ∧
    ((∀ s u, failLLM "llm down" s u = .error "llm down") ∧
      rag_chain_query (.ok ()) c3colls cprompts (failLLM "llm down") "q" 5 =
        .error "llm down") ∧
    search_all_results (("B", .error "boom") :: []) = search_all_results [] :=
  ⟨c7_oracle_failures.1 "embed down" c3colls cprompts okLLM "q" 5,
    ⟨fun _ _ => rfl,
      c7_oracle_failures.2.1 "llm down" c3colls cprompts "q" 5 (failLLM "llm down")
        (fun _ _ => rfl)⟩,
    c7_oracle_failures.2.2 "B" "boom" []⟩

/-! ## C8 — hierarchical chunking invariants -/

theorem mkParentId_inj (source : String) {i j : Nat}
    (h : mkParentId source i = mkParentId source j) : i = j :=
  natRepr_inj (string_append_left_cancel h)

/-- Among the parents of one run, exactly one carries a given parent id. -/
theorem countP_parents (psplit csplit : String → List String)
    (text source : String) (base : Meta) (pidx : Nat)
    (h : pidx < (psplit text).length) :
    ((hierarchical_chunk psplit csplit text source base).1.countP
      (fun p => p.chunk_id = mkParentId source pidx)) = 1 := by
  rw [hierarchical_chunk]
  simp only [List.countP_map]
  have hc : List.countP
      (fun (q : Nat × String) => decide (mkParentId source q.1 = mkParentId source pidx))
      ((psplit text).enum) =
      List.countP (fun (q : Nat × String) => q.1 == pidx) ((psplit text).enum) := by
    apply List.countP_congr
    intro x _
    simp only [decide_eq_true_eq, beq_iff_eq]
    exact ⟨fun hx => mkParentId_inj source hx, fun hx => by rw [hx]⟩
  have hmap : List.countP (fun (q : Nat × String) => q.1 == pidx) ((psplit text).enum) =
      (((psplit text).enum).map Prod.fst).countP (fun n => n == pidx) := by
    rw [List.countP_map]
    rfl
  have hcount : (List.range (psplit text).length).countP (fun n => n == pidx) =
      (List.range (psplit text).length).count pidx := rfl
  have hfinal : List.countP
      (fun (q : Nat × String) => decide (mkParentId source q.1 = mkParentId source pidx))
      ((psplit text).enum) = 1 := by
    rw [hc, hmap, List.enum_map_fst, hcount]
    exact List.count_eq_one_of_mem (List.nodup_range _) (List.mem_range.mpr h)
  exact hfinal

theorem filter_children_nil (source : String) (base : Meta)
    (csplit : String → List String) (pidx0 : Nat) :
    ∀ (entries : List (Nat × String)), pidx0 ∉ entries.map Prod.fst →
    (entries.flatMap (fun p => (csplit p.2).enum.map (mk_child source base p.1))).filter
      (fun ch => ch.parent_id = some (mkParentId source pidx0)) = [] := by
  intro entries
  induction entries with
  | nil => intro _; rfl
  | cons e rest ih =>
    intro hnot
    have hne : e.1 ≠ pidx0 := by
      intro he
      exact hnot (by simp [he.symm])
    have hrest : pidx0 ∉ rest.map Prod.fst := by
      intro hr
      exact hnot (by simp [hr])
    rw [List.flatMap_cons, List.filter_append, ih hrest, List.append_nil]
    apply List.filter_eq_nil.mpr
    intro ch hch
    obtain ⟨c, _, rfl⟩ := List.mem_map.mp hch
    simp only [mk_child, decide_eq_true_eq, Option.some.injEq]
    intro hid
    exact hne (mkParentId_inj source hid)

theorem filter_children (source : String) (base : Meta)
    (csplit : String → List String) (pidx0 : Nat) (pdoc0 : String) :
    ∀ (entries : List (Nat × String)), (pidx0, pdoc0) ∈ entries →
    (entries.map Prod.fst).Nodup →
    (entries.flatMap (fun p => (csplit p.2).enum.map (mk_child source base p.1))).filter
      (fun ch => ch.parent_id = some (mkParentId source pidx0)) =
      (csplit pdoc0).enum.map (mk_child source base pidx0) := by
  intro entries
  induction entries with
  | nil => intro hmem; simp at hmem
  | cons e rest ih =>
    rcases e with ⟨i, d⟩
    intro hmem hnd
    have hnd2 : (∀ x : String, (i, x) ∉ rest) ∧ (List.map Prod.fst rest).Nodup := by
      simpa using hnd
    rw [List.flatMap_cons, List.filter_append]
    rcases List.mem_cons.mp hmem with heq | hmem2
    · have he1 : i = pidx0 := by
        have := congrArg Prod.fst heq
        simpa using this.symm
      have he2 : d = pdoc0 := by
        have := congrArg Prod.snd heq
        simpa using this.symm
      subst he1
      subst he2
      have hnotrest : i ∉ rest.map Prod.fst := by
        intro hr
        obtain ⟨q, hq, hq1⟩ := List.mem_map.mp hr
        apply hnd2.1 q.2
        have hqe : q = (i, q.2) := by
          rcases q with ⟨q1, q2⟩
          simp at hq1
          rw [hq1]
        rw [← hqe]
        exact hq
      rw [filter_children_nil source base csplit i rest hnotrest, List.append_nil]
      rw [List.filter_eq_self.mpr]
      intro ch hch
      obtain ⟨c, _, rfl⟩ := List.mem_map.mp hch
      simp [mk_child]
    · have hne : i ≠ pidx0 := by
        intro he
        apply hnd2.1 pdoc0
        rw [he]
        exact hmem2
      have hgroup : ((csplit d).enum.map (mk_child source base i)).filter
          (fun ch => ch.parent_id = some (mkParentId source pidx0)) = [] := by
        apply List.filter_eq_nil.mpr
        intro ch hch
        obtain ⟨c, _, rfl⟩ := List.mem_map.mp hch
        simp only [mk_child, decide_eq_true_eq, Option.some.injEq]
        intro hid
        exact hne (mkParentId_inj source hid)
      rw [hgroup, List.nil_append]
      exact ih hmem2 hnd2.2

/-- C8: in every hierarchical chunking run, each child's `parent_id` is the
`chunk_id` of exactly one produced parent; each parent's `child_ids` is
exactly, in order, the ids of the children carrying its id, with
`child_count` metadata equal to its length; the output has at least one
parent, with at least one child each, whenever the parent splitter returns at
least one piece and the child splitter returns at least one piece per parent
(the contract of the recursive character splitter on non-blank text); and a
text over the threshold with no table/Q&A pattern routes to this output with
`strategy_used = "hierarchical"`. -/
theorem c8_hierarchical_chunk (split psplit csplit : String → List String)
    (thr : Nat) (text source : String) (website : Option String) (base : Meta) :
    (∀ ch ∈ (hierarchical_chunk psplit csplit text source base).2,
      ∃ pid, ch.parent_id = some pid ∧
        ((hierarchical_chunk psplit csplit text source base).1.countP
          (fun p => p.chunk_id = pid)) = 1) ∧
    (∀ p ∈ (hierarchical_chunk psplit csplit text source base).1,
      p.child_ids = (((hierarchical_chunk psplit csplit text source base).2.filter
        (fun ch => ch.parent_id = some p.chunk_id)).map (fun ch => ch.chunk_id)) ∧
      mget p.metadata "child_count" = some (.n p.child_ids.length)) ∧
    (psplit text ≠ [] → (hierarchical_chunk psplit csplit text source base).1 ≠ []) ∧
    ((∀ s ∈ psplit text, csplit s ≠ []) →
      ∀ p ∈ (hierarchical_chunk psplit csplit text source base).1, p.child_ids ≠ []) ∧
    (is_table text = false → is_qa_format text = false → thr < text.length →
      auto_detect_and_chunk split psplit csplit thr text source website base =
        { chunks := (hierarchical_chunk psplit csplit text source base).2.map .hier
          strategy_used := "hierarchical"
          parent_chunks := some (hierarchical_chunk psplit csplit text source base).1 }) := by
  refine ⟨?_, ?_, ?_, ?_, ?_⟩
  · intro ch hch
    rw [hierarchical_chunk] at hch
    simp only [List.mem_flatMap] at hch
    obtain ⟨q, hq, hchq⟩ := hch
    obtain ⟨c, _, rfl⟩ := List.mem_map.mp hchq
    refine ⟨mkParentId source q.1, rfl, ?_⟩
    apply countP_parents
    by_contra hnot
    push_neg at hnot
    have hnone : (psplit text).get? q.1 = none :=
      List.get?_eq_none.mpr hnot
    have hsome := List.mem_enum_iff_get?.mp hq
    rw [hnone] at hsome
    exact Option.noConfusion hsome
  · intro p hp
    rw [hierarchical_chunk] at hp
    simp only [List.mem_map] at hp
    obtain ⟨q, hq, rfl⟩ := hp
    rcases q with ⟨pidx, pdoc⟩
    constructor
    · have hfil := filter_children source base csplit pidx pdoc
        ((psplit text).enum) hq (by rw [List.enum_map_fst]; exact List.nodup_range _)
      show (csplit pdoc).enum.map (fun c => mkChildId source pidx c.1) = _
      have hch : (hierarchical_chunk psplit csplit text source base).2 =
          ((psplit text).enum).flatMap
            (fun p => (csplit p.2).enum.map (mk_child source base p.1)) := rfl
      rw [hch, hfil, List.map_map]
      rfl
    · show mget ((base ++ _) ++ _) "child_count" = _
      rw [mget_append_right _ _ _ (by rfl)]
      rfl
  · intro hne
    rw [hierarchical_chunk]
    simp [hne]
  · intro hcs p hp
    rw [hierarchical_chunk] at hp
    simp only [List.mem_map] at hp
    obtain ⟨q, hq, rfl⟩ := hp
    rcases q with ⟨pidx, pdoc⟩
    have hget := List.mem_enum_iff_get?.mp hq
    have hmem : pdoc ∈ psplit text := List.get?_mem hget
    have hcne := hcs pdoc hmem
    show (csplit pdoc).enum.map (fun c => mkChildId source pidx c.1) ≠ []
    simp [hcne]
  · intro ht hqa hlen
    have hcond : ¬ (is_qa_format text = true ∧
        qa_chunk_from_text text source website base ≠ []) := by
      simp [hqa]
    simp [auto_detect_and_chunk, ht, hcond, hlen, chunk_hierarchical]

/-! Facts needed to evaluate the detectors on a large plain document without
unfolding them character by character: a table match needs a pipe-laden line
or a tab, a Q&A match needs a (case-insensitive) leading pattern character. -/

theorem mem_of_mem_splitOnChar (sep : Char) :
    ∀ (cs : List Char), ∀ l ∈ splitOnChar sep cs, ∀ a ∈ l, a ∈ cs := by
  intro cs
  induction cs with
  | nil =>
    intro l hl a ha
    simp [splitOnChar] at hl
    subst hl
    simp at ha
  | cons c rest ih =>
    intro l hl a ha
    by_cases hc : c = sep
    · simp only [splitOnChar, hc, if_true] at hl
      rcases List.mem_cons.mp hl with rfl | hl2
      · simp at ha
      · exact List.mem_cons_of_mem c (ih l hl2 a ha)
    · simp only [splitOnChar, hc, if_false] at hl
      cases hsr : splitOnChar sep rest with
      | nil => exact absurd hsr (splitOnChar_ne_nil sep rest)
      | cons h t =>
        rw [hsr] at hl
        rcases List.mem_cons.mp hl with rfl | hl2
        · rcases List.mem_cons.mp ha with rfl | ha2
          · exact List.mem_cons_self a rest
          · exact List.mem_cons_of_mem c
              (ih h (by rw [hsr]; exact List.mem_cons_self h t) a ha2)
        · exact List.mem_cons_of_mem c
            (ih l (by rw [hsr]; exact List.mem_cons_of_mem h hl2) a ha)

theorem hasThreePipes_pipe (text : String) (h : hasThreePipes text = true) :
    '|' ∈ text.data := by
  rw [hasThreePipes, List.any_eq_true] at h
  obtain ⟨l, hl, hcnt⟩ := h
  simp only [decide_eq_true_eq] at hcnt
  have hne : l.filter (fun c => c = '|') ≠ [] := by
    intro hnil
    rw [hnil] at hcnt
    simp at hcnt
  obtain ⟨a, ha⟩ := List.exists_mem_of_ne_nil _ hne
  have := List.mem_filter.mp ha
  have ha2 : a = '|' := by simpa using this.2
  have hmem : a ∈ l := this.1
  rw [ha2] at hmem
  exact mem_of_mem_splitOnChar '\n' text.data l hl '|' hmem

theorem wsStarTails_suffix : ∀ (cs t : List Char), t ∈ wsStarTails cs →
    List.IsSuffix t cs := by
  intro cs
  induction cs with
  | nil =>
    intro t ht
    simp [wsStarTails] at ht
    subst ht
    exact List.suffix_refl []
  | cons c rest ih =>
    intro t ht
    simp only [wsStarTails] at ht
    rcases List.mem_cons.mp ht with rfl | ht2
    · exact List.suffix_refl _
    · by_cases hws : pyIsSpace c
      · rw [if_pos hws] at ht2
        obtain ⟨s, hs⟩ := ih t ht2
        exact ⟨c :: s, by rw [List.cons_append, hs]⟩
      · rw [if_neg hws] at ht2
        simp at ht2

theorem nonSpacePlusTails_suffix : ∀ (cs t : List Char),
    t ∈ nonSpacePlusTails cs → List.IsSuffix t cs := by
  intro cs
  induction cs with
  | nil => intro t ht; simp [nonSpacePlusTails] at ht
  | cons c rest ih =>
    intro t ht
    simp only [nonSpacePlusTails] at ht
    by_cases hws : pyIsSpace c
    · rw [if_pos hws] at ht
      simp at ht
    · rw [if_neg hws] at ht
      rcases List.mem_cons.mp ht with rfl | ht2
      · exact ⟨[c], rfl⟩
      · obtain ⟨s, hs⟩ := ih t ht2
        exact ⟨c :: s, by rw [List.cons_append, hs]⟩

theorem repRests_tab (cs r : List Char) (h : r ∈ repRests cs) : '\t' ∈ cs := by
  rw [repRests] at h
  obtain ⟨t1, ht1, hr⟩ := List.mem_flatMap.mp h
  obtain ⟨t2, ht2, hf⟩ := List.mem_filterMap.mp hr
  have ht2tab : '\t' ∈ t2 := by
    split at hf
    · exact List.mem_cons_self _ _
    · exact Option.noConfusion hf
  have h12 : '\t' ∈ t1 := ((wsStarTails_suffix t1 t2 ht2).sublist).mem ht2tab
  exact ((nonSpacePlusTails_suffix cs t1 ht1).sublist).mem h12

theorem tabPatSearch_tab : ∀ (cs : List Char), tabPatSearch cs = true →
    '\t' ∈ cs := by
  intro cs
  induction cs with
  | nil => intro h; simp [tabPatSearch] at h
  | cons c rest ih =>
    intro h
    rw [tabPatSearch, Bool.or_eq_true] at h
    rcases h with h | h
    · rw [tabPatAt, List.any_eq_true] at h
      obtain ⟨r1, hr1, _⟩ := h
      exact repRests_tab _ r1 hr1
    · exact List.mem_cons_of_mem c (ih h)

theorem ciStrip_cons_head {p : Char} {ps cs : List Char}
    (h : (ciStripPrefix (p :: ps) cs).isSome) : ∃ c ∈ cs, ciEq p c = true := by
  cases cs with
  | nil => simp [ciStripPrefix] at h
  | cons c rest =>
    by_cases hc : ciEq p c
    · exact ⟨c, List.mem_cons_self c rest, hc⟩
    · rw [ciStripPrefix, if_neg hc] at h
      simp at h

theorem qaSearch_head {p : Char} {ps mid : List Char} :
    ∀ (cs : List Char), qaSearch (p :: ps) mid cs = true →
      ∃ c ∈ cs, ciEq p c = true := by
  intro cs
  induction cs with
  | nil => intro h; simp [qaSearch] at h
  | cons c rest ih =>
    intro h
    rw [qaSearch, Bool.or_eq_true] at h
    rcases h with h | h
    · rw [qaSearchAt] at h
      cases hm : ciStripPrefix (p :: ps) (c :: rest) with
      | none => rw [hm] at h; simp at h
      | some cs1 => exact ciStrip_cons_head (by rw [hm]; rfl)
    · obtain ⟨c2, hc2, hci⟩ := ih h
      exact ⟨c2, List.mem_cons_of_mem c hc2, hci⟩

theorem ciSubstring_head {p : Char} {ps : List Char} :
    ∀ (cs : List Char), ciSubstring (p :: ps) cs = true →
      ∃ c ∈ cs, ciEq p c = true := by
  intro cs
  induction cs with
  | nil => intro h; simp [ciSubstring, ciStripPrefix] at h
  | cons c rest ih =>
    intro h
    rw [ciSubstring, Bool.or_eq_true] at h
    rcases h with h | h
    · exact ciStrip_cons_head (by rw [h])
    · obtain ⟨c2, hc2, hci⟩ := ih h
      exact ⟨c2, List.mem_cons_of_mem c hc2, hci⟩

/-- A 12,000-character plain document. -/
def c8text : String := String.mk (List.replicate 12000 'a')

theorem c8text_not_table : is_table c8text = false := by
  rw [is_table]
  apply Bool.or_eq_false_iff.mpr
  constructor
  · by_contra h
    have h2 : hasThreePipes c8text = true := by
      cases hb : hasThreePipes c8text
      · exact absurd hb h
      · rfl
    have := hasThreePipes_pipe c8text h2
    rw [c8text] at this
    have := List.eq_of_mem_replicate this
    exact absurd this (by decide)
  · by_contra h
    have h2 : tabPatSearch c8text.data = true := by
      cases hb : tabPatSearch c8text.data
      · exact absurd hb h
      · rfl
    have := tabPatSearch_tab c8text.data h2
    rw [c8text] at this
    have := List.eq_of_mem_replicate this
    exact absurd this (by decide)

theorem c8text_not_qa : is_qa_format c8text = false := by
  rw [is_qa_format]
  apply Bool.or_eq_false_iff.mpr
  refine ⟨Bool.or_eq_false_iff.mpr ⟨?_, ?_⟩, ?_⟩
  · by_contra h
    have h2 : qaSearch "Q:".data "A:".data c8text.data = true := by
      cases hb : qaSearch "Q:".data "A:".data c8text.data
      · exact absurd hb h
      · rfl
    obtain ⟨c, hc, hci⟩ := qaSearch_head _ h2
    rw [c8text] at hc
    have := List.eq_of_mem_replicate hc
    subst this
    exact absurd hci (by decide)
  · by_contra h
    have h2 : qaSearch "Question:".data "Answer:".data c8text.data = true := by
      cases hb : qaSearch "Question:".data "Answer:".data c8text.data
      · exact absurd hb h
      · rfl
    obtain ⟨c, hc, hci⟩ := qaSearch_head _ h2
    rw [c8text] at hc
    have := List.eq_of_mem_replicate hc
    subst this
    exact absurd hci (by decide)
  · by_contra h
    have h2 : ciSubstring "**Question**:".data c8text.data = true := by
      cases hb : ciSubstring "**Question**:".data c8text.data
      · exact absurd hb h
      · rfl
    obtain ⟨c, hc, hci⟩ := ciSubstring_head _ h2
    rw [c8text] at hc
    have := List.eq_of_mem_replicate hc
    subst this
    exact absurd hci (by decide)

theorem c8text_len : 5000 < c8text.length := by
  show 5000 < (List.replicate 12000 'a').length
  rw [List.length_replicate]
  norm_num

/-- C8 witness: the invariants theorem applied to a 12,000-character plain
document with whole-text splitters. -/
theorem c8_hierarchical_chunk_witness :
    idsplit c8text ≠ [] ∧
    (∀ s ∈ idsplit c8text, idsplit s ≠ []) ∧
    is_table c8text = false ∧ is_qa_format c8text = false ∧
    5000 < c8text.length ∧
    (hierarchical_chunk idsplit idsplit c8text "doc" []).1 ≠ [] ∧
    (∀ p ∈ (hierarchical_chunk idsplit idsplit c8text "doc" []).1,
      p.child_ids ≠ []) ∧
    (auto_detect_and_chunk idsplit idsplit idsplit 5000 c8text "doc" none
      []).strategy_used = "hierarchical" := by
  have h := c8_hierarchical_chunk idsplit idsplit idsplit 5000 c8text "doc" none []
  refine ⟨by simp [idsplit], fun s _ => by simp [idsplit], c8text_not_table,
    c8text_not_qa, c8text_len, h.2.2.1 (by simp [idsplit]),
    h.2.2.2.1 (fun s _ => by simp [idsplit]), ?_⟩
  rw [h.2.2.2.2 c8text_not_table c8text_not_qa c8text_len]
